import Mathlib

/-!
Verification of the context-aware memory engine
(`src/mcp_servers/context_aware_memory/src/tools/`): a shallow embedding of
`semantic_storage.py`, `intelligent_retrieval.py` and `predictive_loading.py`,
with theorems about the store indexes, the preload cache, retrieval scoring
and the prediction pipeline.

Modelling conventions:
* Python `float` is modelled by `ℚ` (all the formulas in the source are exact
  rational arithmetic on their inputs).
* Python `dict` is modelled by an association list in insertion order:
  assignment to an existing key updates the value in place, assignment to a
  fresh key appends, and iteration order is list order, matching CPython.
* Python `datetime` values are modelled by a record carrying the absolute
  timeline position in hours together with the calendar projections the code
  reads (`.hour`, `.weekday()`, `.month`).
* `datetime.now()` is passed in explicitly as a `now` parameter.
* `hashlib.md5(...).hexdigest()` is passed in as an abstract `hash` function
  `String → String`; no theorem depends on its concrete behaviour.
-/

/-! ## Association-list dictionaries (Python `dict` in insertion order) -/

/-- First binding of `k`, like `d[k]`/`d.get(k)`. -/
def dget? {α : Type} [DecidableEq α] {β : Type} : List (α × β) → α → Option β
  | [], _ => none
  | (k', v) :: t, k => if k' = k then some v else dget? t k

/-- `d[k] = v`: update in place if the key is present (keeping its position,
as CPython dicts do), otherwise append the new binding. -/
def dset {α : Type} [DecidableEq α] {β : Type} : List (α × β) → α → β → List (α × β)
  | [], k, v => [(k, v)]
  | (k', v') :: t, k, v => if k' = k then (k, v) :: t else (k', v') :: dset t k v

/-- `del d[k]` (also used for `d.pop(k, None)`): drop the binding of `k`. -/
def dremove {α : Type} [DecidableEq α] {β : Type} (d : List (α × β)) (k : α) :
    List (α × β) :=
  d.filter (fun kv => kv.1 ≠ k)

/-- Keys of the dictionary, in insertion order. -/
def dkeys {α : Type} {β : Type} (d : List (α × β)) : List α :=
  d.map Prod.fst

/-- Read with a default, like `collections.defaultdict` lookups that do not
write (the defaulted entry is observationally absent until written). -/
def dgetD {α : Type} [DecidableEq α] {β : Type} (d : List (α × β)) (k : α) (v : β) : β :=
  (dget? d k).getD v

/-- `d[k] = f(d[k], default)` for a defaultdict: apply `f` to the current value
(or the default) and store the result, appending the key if it is fresh. -/
def dupdate {α : Type} [DecidableEq α] {β : Type} (d : List (α × β)) (k : α)
    (default : β) (f : β → β) : List (α × β) :=
  dset d k (f (dgetD d k default))

theorem dget?_dset_self {α : Type} [DecidableEq α] {β : Type}
    (d : List (α × β)) (k : α) (v : β) : dget? (dset d k v) k = some v := by
  induction d with
  | nil => simp [dset, dget?]
  | cons kv t ih =>
      obtain ⟨k', v'⟩ := kv
      by_cases h : k' = k <;> simp [dset, dget?, h, ih]

theorem dget?_dset_ne {α : Type} [DecidableEq α] {β : Type}
    (d : List (α × β)) (k k' : α) (v : β) (h : k' ≠ k) :
    dget? (dset d k v) k' = dget? d k' := by
  have h' : ¬ (k = k') := fun he => h he.symm
  induction d with
  | nil => simp [dset, dget?, h']
  | cons kv t ih =>
      obtain ⟨k₀, v₀⟩ := kv
      by_cases h₀ : k₀ = k
      · subst h₀
        simp [dset, dget?, h']
      · simp [dset, dget?, h₀, ih]

theorem dget?_dremove_self {α : Type} [DecidableEq α] {β : Type}
    (d : List (α × β)) (k : α) : dget? (dremove d k) k = none := by
  induction d with
  | nil => simp [dremove, dget?]
  | cons kv t ih =>
      obtain ⟨k', v'⟩ := kv
      by_cases h : k' = k
      · subst h
        simpa [dremove, dget?] using ih
      · rw [show dremove ((k', v') :: t) k = (k', v') :: dremove t k by
              simp [dremove, h]]
        simp [dget?, h, ih]

theorem dget?_dremove_ne {α : Type} [DecidableEq α] {β : Type}
    (d : List (α × β)) (k k' : α) (h : k' ≠ k) :
    dget? (dremove d k) k' = dget? d k' := by
  induction d with
  | nil => simp [dremove, dget?]
  | cons kv t ih =>
      obtain ⟨k₀, v₀⟩ := kv
      by_cases h₀ : k₀ = k
      · rw [show dremove ((k₀, v₀) :: t) k = dremove t k by simp [dremove, h₀]]
        have h₁ : ¬ (k₀ = k') := by
          rw [h₀]; exact fun he => h he.symm
        simp [dget?, h₁, ih]
      · rw [show dremove ((k₀, v₀) :: t) k = (k₀, v₀) :: dremove t k by
              simp [dremove, h₀]]
        simp [dget?, ih]

theorem dkeys_dset {α : Type} [DecidableEq α] {β : Type}
    (d : List (α × β)) (k : α) (v : β) :
    dkeys (dset d k v) = if k ∈ dkeys d then dkeys d else dkeys d ++ [k] := by
  induction d with
  | nil => simp [dset, dkeys]
  | cons kv t ih =>
      obtain ⟨k₀, v₀⟩ := kv
      by_cases h : k₀ = k
      · subst h
        simp [dset, dkeys]
      · have hne : ¬ (k = k₀) := fun he => h he.symm
        simp only [dset, if_neg h, dkeys, List.map_cons] at ih ⊢
        rw [ih]
        by_cases h' : k ∈ List.map Prod.fst t <;>
          simp [dkeys, h', List.mem_cons, hne]

theorem length_dset {α : Type} [DecidableEq α] {β : Type}
    (d : List (α × β)) (k : α) (v : β) :
    (dset d k v).length = if k ∈ dkeys d then d.length else d.length + 1 := by
  have h : (dset d k v).length = (dkeys (dset d k v)).length := by
    simp [dkeys]
  rw [h, dkeys_dset d k v]
  simp only [dkeys]
  by_cases hk : k ∈ List.map Prod.fst d
  · simp [if_pos hk]
  · simp [if_neg hk]

theorem length_dset_le {α : Type} [DecidableEq α] {β : Type}
    (d : List (α × β)) (k : α) (v : β) :
    (dset d k v).length ≤ d.length + 1 := by
  rw [length_dset]
  by_cases hk : k ∈ dkeys d <;> simp [hk]

/-! ## Data model (`semantic_storage.py`) -/

/-- `MemoryType` enumeration. -/
inductive MemoryType where
  | text | code | conversation | document | task | reference | insight | pattern
deriving DecidableEq, Repr

/-- `AccessLevel` enumeration (PUBLIC/PRIVATE/SHARED/ARCHIVED; the first two
are renamed `pub`/`priv` because they are Lean keywords). -/
inductive AccessLevel where
  | pub | priv | shared | archived
deriving DecidableEq, Repr

/-- `MemoryContext`: situational metadata attached to items and queries.
`timestamp` is in hours on the absolute timeline; `metadata` is modelled by
its key list (the source only ever inspects the keys). -/
structure MemoryContext where
  project : Option String := none
  session : Option String := none
  user : Option String := none
  application : Option String := none
  timestamp : ℚ := 0
  location : Option String := none
  environment : Option String := none
  metadata : List String := []
deriving DecidableEq, Repr

/-- `MemoryItem`: a stored unit. All timestamps are hours on the absolute
timeline ('hours since epoch'); `datetime` subtraction followed by
`.total_seconds() / 3600` in the source is plain subtraction here. -/
structure MemoryItem where
  memoryId : String
  content : String := ""
  contentHash : String := ""
  memoryType : MemoryType := MemoryType.text
  context : Option MemoryContext := none
  tags : List String := []
  importance : ℚ := 1
  confidence : ℚ := 1
  accessLevel : AccessLevel := AccessLevel.pub
  createdAt : ℚ := 0
  updatedAt : ℚ := 0
  expiresAt : Option ℚ := none
  lastAccessed : Option ℚ := none
  accessCount : ℕ := 0
  embedding : Option (List ℚ) := none
  similarityScore : ℚ := 0
  relatedMemories : List String := []
  parentMemory : Option String := none
  childMemories : List String := []
deriving DecidableEq, Repr

/-- `MemoryItem.__post_init__`: compute the content fingerprint from the
content when none was supplied, and default the context. `hash` stands for
`hashlib.md5(...).hexdigest()` and `now` for `datetime.now()` (used by the
default `MemoryContext`'s timestamp). -/
def postInit (hash : String → String) (now : ℚ) (m : MemoryItem) : MemoryItem :=
  { m with
    contentHash := if m.contentHash = "" then hash m.content else m.contentHash,
    context := match m.context with
      | none => some { timestamp := now }
      | some c => some c }

/-! ## Preload cache (`predictive_loading.py`, class `PreloadCache`)

The source keeps three dictionaries `memories`, `load_times` and
`access_counts` over the same keys; they are updated in lockstep by
`add_memory`, `get_memory` and `_evict_oldest`. -/

structure PreloadCache where
  memories : List (String × MemoryItem) := []
  loadTimes : List (String × ℚ) := []
  accessCounts : List (String × ℕ) := []
  hitRate : ℚ := 0
  maxSize : ℕ := 1000
deriving DecidableEq, Repr

/-- Left-to-right minimum scan: the running best is replaced only by a
strictly smaller value, so the first of several minima wins — exactly
Python's `min`. -/
def minByVal (best : String × ℚ) : List (String × ℚ) → String × ℚ
  | [] => best
  | (k, v) :: t => minByVal (if v < best.2 then (k, v) else best) t

/-- `min(self.load_times.keys(), key=lambda k: self.load_times[k])`:
the first key attaining the minimal load time (dict iteration order is
insertion order). -/
def argminFirst : List (String × ℚ) → Option String
  | [] => none
  | p :: t => some (minByVal p t).1

/-- `PreloadCache._evict_oldest`. -/
def evictOldest (c : PreloadCache) : PreloadCache :=
  match argminFirst c.loadTimes with
  | none => c
  | some oldest =>
      { c with
        memories := dremove c.memories oldest,
        loadTimes := dremove c.loadTimes oldest,
        accessCounts := dremove c.accessCounts oldest }

/-- `PreloadCache.add_memory`; `now` is `datetime.now()` at insertion. -/
def addMemory (c : PreloadCache) (m : MemoryItem) (now : ℚ) : PreloadCache :=
  let c := if c.memories.length ≥ c.maxSize then evictOldest c else c
  { c with
    memories := dset c.memories m.memoryId m,
    loadTimes := dset c.loadTimes m.memoryId now,
    accessCounts := dset c.accessCounts m.memoryId 0 }

/-- `PreloadCache.get_memory`. -/
def getMemory (c : PreloadCache) (memoryId : String) :
    Option MemoryItem × PreloadCache :=
  match dget? c.memories memoryId with
  | none => (none, c)
  | some m =>
      (some m,
       { c with
         accessCounts := dupdate c.accessCounts memoryId 0 (fun n => n + 1) })

/-- `PreloadCache.update_hit_rate`: the source divides the number of entries
with a positive access count by `max(1, total_accesses)`, where
`total_accesses` is the *sum* of all access counts. -/
def updateHitRate (c : PreloadCache) : PreloadCache :=
  let totalAccesses : ℕ := (c.accessCounts.map Prod.snd).sum
  let hits : ℕ := (c.accessCounts.filter (fun kv => 0 < kv.2)).length
  { c with hitRate := (hits : ℚ) / (max 1 totalAccesses : ℕ) }

/-- The hit rate as the spec sentence describes it: the fraction of currently
cached entries that have at least one recorded access. -/
def hitRateSpec (c : PreloadCache) : ℚ :=
  ((c.accessCounts.filter (fun kv => 0 < kv.2)).length : ℚ) / c.accessCounts.length

/-- Folding a whole insertion sequence into the cache. -/
def addAll (c : PreloadCache) : List (MemoryItem × ℚ) → PreloadCache
  | [] => c
  | (m, t) :: rest => addAll (addMemory c m t) rest

/-- An empty cache with the given capacity. -/
def emptyCache (maxSize : ℕ) : PreloadCache :=
  { maxSize := maxSize }

/-! ### Dictionary lemmas used by the cache proofs -/

theorem dkeys_cons {α : Type} {β : Type} (kv : α × β) (t : List (α × β)) :
    dkeys (kv :: t) = kv.1 :: dkeys t := rfl

theorem dremove_cons_self {α : Type} [DecidableEq α] {β : Type}
    (t : List (α × β)) (k : α) (v : β) :
    dremove ((k, v) :: t) k = dremove t k := by
  simp [dremove]

theorem dremove_cons_ne {α : Type} [DecidableEq α] {β : Type}
    (t : List (α × β)) (k₀ k : α) (v : β) (h : ¬ k₀ = k) :
    dremove ((k₀, v) :: t) k = (k₀, v) :: dremove t k := by
  simp [dremove, h]

theorem dset_fresh {α : Type} [DecidableEq α] {β : Type}
    (d : List (α × β)) (k : α) (v : β) (h : k ∉ dkeys d) :
    dset d k v = d ++ [(k, v)] := by
  induction d with
  | nil => simp [dset]
  | cons kv t ih =>
      obtain ⟨k₀, v₀⟩ := kv
      rw [dkeys_cons, List.mem_cons] at h
      push_neg at h
      have hne : ¬ (k₀ = k) := fun he => h.1 he.symm
      simp [dset, hne, ih h.2]

theorem dremove_not_mem {α : Type} [DecidableEq α] {β : Type}
    (d : List (α × β)) (k : α) (h : k ∉ dkeys d) :
    dremove d k = d := by
  induction d with
  | nil => simp [dremove]
  | cons kv t ih =>
      obtain ⟨k₀, v₀⟩ := kv
      rw [dkeys_cons, List.mem_cons] at h
      push_neg at h
      have hne : ¬ (k₀ = k) := fun he => h.1 he.symm
      rw [dremove_cons_ne t k₀ k v₀ hne, ih h.2]

theorem dkeys_dremove {α : Type} [DecidableEq α] {β : Type}
    (d : List (α × β)) (k : α) :
    dkeys (dremove d k) = (dkeys d).filter (fun x => x ≠ k) := by
  induction d with
  | nil => rfl
  | cons kv t ih =>
      obtain ⟨k₀, v₀⟩ := kv
      by_cases h : k₀ = k
      · subst h
        rw [dremove_cons_self, dkeys_cons]
        simp [ih, List.filter_cons]
      · rw [dremove_cons_ne t k₀ k v₀ h, dkeys_cons, dkeys_cons]
        simp [ih, List.filter_cons, h]

theorem mem_dkeys_dremove {α : Type} [DecidableEq α] {β : Type}
    (d : List (α × β)) (k x : α) :
    x ∈ dkeys (dremove d k) ↔ x ∈ dkeys d ∧ x ≠ k := by
  rw [dkeys_dremove]
  simp

theorem length_dremove_mem {α : Type} [DecidableEq α] {β : Type}
    (d : List (α × β)) (k : α) (hn : (dkeys d).Nodup) (h : k ∈ dkeys d) :
    (dremove d k).length + 1 = d.length := by
  induction d with
  | nil => simp [dkeys] at h
  | cons kv t ih =>
      obtain ⟨k₀, v₀⟩ := kv
      rw [dkeys_cons, List.mem_cons] at h
      rw [dkeys_cons, List.nodup_cons] at hn
      by_cases h₀ : k₀ = k
      · subst h₀
        rw [dremove_cons_self, dremove_not_mem t k₀ hn.1]
        simp
      · have hk : k ∈ dkeys t := by
          rcases h with h | h
          · exact absurd h.symm h₀
          · exact h
        rw [dremove_cons_ne t k₀ k v₀ h₀]
        have := ih hn.2 hk
        simp only [List.length_cons]
        omega

theorem dget?_append {α : Type} [DecidableEq α] {β : Type}
    (a b : List (α × β)) (k : α) :
    dget? (a ++ b) k =
      match dget? a k with
      | some v => some v
      | none => dget? b k := by
  induction a with
  | nil => simp [dget?]
  | cons kv t ih =>
      obtain ⟨k₀, v₀⟩ := kv
      by_cases h : k₀ = k <;> simp [dget?, h, ih]

theorem dget?_eq_none_of_not_mem {α : Type} [DecidableEq α] {β : Type}
    (d : List (α × β)) (k : α) (h : k ∉ dkeys d) : dget? d k = none := by
  induction d with
  | nil => simp [dget?]
  | cons kv t ih =>
      obtain ⟨k₀, v₀⟩ := kv
      rw [dkeys_cons, List.mem_cons] at h
      push_neg at h
      have hne : ¬ (k₀ = k) := fun he => h.1 he.symm
      simp [dget?, hne, ih h.2]

theorem mem_dkeys_of_dget? {α : Type} [DecidableEq α] {β : Type}
    (d : List (α × β)) (k : α) (v : β) (h : dget? d k = some v) : k ∈ dkeys d := by
  by_contra hk
  rw [dget?_eq_none_of_not_mem d k hk] at h
  cases h

/-! ### Cache well-formedness -/

/-- The three parallel dictionaries of a `PreloadCache` share their key set
(in the same order) and have no duplicate keys — true of every state the
source can reach, since the dictionaries are updated in lockstep. -/
def CacheWF (c : PreloadCache) : Prop :=
  dkeys c.loadTimes = dkeys c.memories ∧
  dkeys c.accessCounts = dkeys c.memories ∧
  (dkeys c.memories).Nodup

theorem cacheWF_empty (maxSize : ℕ) : CacheWF (emptyCache maxSize) := by
  refine ⟨rfl, rfl, ?_⟩
  simp [emptyCache, dkeys]

theorem dkeys_dset_congr {α : Type} [DecidableEq α] {β γ : Type}
    (a : List (α × β)) (b : List (α × γ)) (k : α) (v : β) (w : γ)
    (h : dkeys a = dkeys b) : dkeys (dset a k v) = dkeys (dset b k w) := by
  rw [dkeys_dset, dkeys_dset, h]

theorem nodup_dkeys_dset {α : Type} [DecidableEq α] {β : Type}
    (d : List (α × β)) (k : α) (v : β) (h : (dkeys d).Nodup) :
    (dkeys (dset d k v)).Nodup := by
  rw [dkeys_dset]
  by_cases hk : k ∈ dkeys d
  · simpa [hk] using h
  · simp [hk, List.nodup_append, h]

theorem cacheWF_evictOldest (c : PreloadCache) (h : CacheWF c) :
    CacheWF (evictOldest c) := by
  obtain ⟨h1, h2, h3⟩ := h
  unfold evictOldest
  cases hm : argminFirst c.loadTimes with
  | none => exact ⟨h1, h2, h3⟩
  | some oldest =>
      refine ⟨?_, ?_, ?_⟩
      · simp [dkeys_dremove, h1]
      · simp [dkeys_dremove, h2]
      · rw [dkeys_dremove]
        exact h3.filter _

theorem cacheWF_addMemory (c : PreloadCache) (m : MemoryItem) (now : ℚ)
    (h : CacheWF c) : CacheWF (addMemory c m now) := by
  unfold addMemory
  set c' := if c.memories.length ≥ c.maxSize then evictOldest c else c with hc'
  have hWF' : CacheWF c' := by
    rw [hc']
    by_cases hge : c.memories.length ≥ c.maxSize
    · simpa [hge] using cacheWF_evictOldest c h
    · simpa [hge] using h
  obtain ⟨h1, h2, h3⟩ := hWF'
  exact ⟨dkeys_dset_congr _ _ _ _ _ h1, dkeys_dset_congr _ _ _ _ _ h2,
    nodup_dkeys_dset _ _ _ h3⟩

/-! ### Eviction and capacity lemmas -/

theorem minByVal_eq_or_mem (best : String × ℚ) (t : List (String × ℚ)) :
    minByVal best t = best ∨ minByVal best t ∈ t := by
  induction t generalizing best with
  | nil => left; rfl
  | cons p t ih =>
      obtain ⟨k, v⟩ := p
      by_cases h : v < best.2
      · rcases ih (k, v) with h' | h'
        · right; rw [show minByVal best ((k, v) :: t) = minByVal (k, v) t by
              simp [minByVal, h]]
          rw [h']; exact List.mem_cons_self _ _
        · right; rw [show minByVal best ((k, v) :: t) = minByVal (k, v) t by
              simp [minByVal, h]]
          exact List.mem_cons_of_mem _ h'
      · rcases ih best with h' | h'
        · left; rw [show minByVal best ((k, v) :: t) = minByVal best t by
              simp [minByVal, h]]
          exact h'
        · right; rw [show minByVal best ((k, v) :: t) = minByVal best t by
              simp [minByVal, h]]
          exact List.mem_cons_of_mem _ h'

theorem argminFirst_mem (l : List (String × ℚ)) (k : String)
    (h : argminFirst l = some k) : k ∈ dkeys l := by
  cases l with
  | nil => cases h
  | cons p t =>
      simp only [argminFirst] at h
      rcases minByVal_eq_or_mem p t with h' | h'
      · rw [h'] at h
        rw [dkeys_cons]
        exact (Option.some_inj.mp h) ▸ List.mem_cons_self _ _
      · rw [dkeys_cons]
        right
        rw [← Option.some_inj.mp h]
        exact List.mem_map_of_mem Prod.fst h'

theorem minByVal_of_forall_lt (best : String × ℚ) (t : List (String × ℚ))
    (h : ∀ q ∈ t, best.2 < q.2) : minByVal best t = best := by
  induction t with
  | nil => rfl
  | cons p t ih =>
      obtain ⟨k, v⟩ := p
      have h1 : ¬ (v < best.2) := not_lt.mpr (le_of_lt (h (k, v) (List.mem_cons_self _ _)))
      rw [show minByVal best ((k, v) :: t) = minByVal best t by simp [minByVal, h1]]
      exact ih (fun q hq => h q (List.mem_cons_of_mem _ hq))

/-- On a strictly time-increasing load-time list the oldest entry is the
first one. -/
theorem argminFirst_of_increasing (p : String × ℚ) (t : List (String × ℚ))
    (h : ∀ q ∈ t, p.2 < q.2) : argminFirst (p :: t) = some p.1 := by
  simp only [argminFirst, minByVal_of_forall_lt p t h]

theorem evictOldest_length (c : PreloadCache) (hWF : CacheWF c)
    (hne : c.memories ≠ []) :
    (evictOldest c).memories.length + 1 = c.memories.length := by
  obtain ⟨h1, h2, h3⟩ := hWF
  have hne' : c.loadTimes ≠ [] := by
    intro habs
    apply hne
    have : dkeys c.memories = [] := by rw [← h1, habs]; rfl
    cases hm : c.memories with
    | nil => rfl
    | cons kv t => rw [hm] at this; cases this
  obtain ⟨p, t, hpt⟩ := List.exists_cons_of_ne_nil hne'
  have hsome : ∃ k, argminFirst c.loadTimes = some k := by
    rw [hpt]; exact ⟨(minByVal p t).1, rfl⟩
  obtain ⟨k, hk⟩ := hsome
  have hkmem : k ∈ dkeys c.memories := by
    rw [← h1]; exact argminFirst_mem _ _ hk
  simp only [evictOldest, hk]
  exact length_dremove_mem c.memories k h3 hkmem

theorem addMemory_maxSize (c : PreloadCache) (m : MemoryItem) (now : ℚ) :
    (addMemory c m now).maxSize = c.maxSize := by
  unfold addMemory
  by_cases h : c.memories.length ≥ c.maxSize <;> simp [h, evictOldest]
  cases argminFirst c.loadTimes <;> simp

theorem addMemory_length_le (c : PreloadCache) (m : MemoryItem) (now : ℚ)
    (hWF : CacheWF c) (h1 : 1 ≤ c.maxSize) (hlen : c.memories.length ≤ c.maxSize) :
    (addMemory c m now).memories.length ≤ c.maxSize := by
  unfold addMemory
  by_cases hge : c.memories.length ≥ c.maxSize
  · have heq : c.memories.length = c.maxSize := le_antisymm hlen hge
    have hne : c.memories ≠ [] := by
      intro habs
      rw [habs] at heq
      simp at heq
      omega
    have hev := evictOldest_length c hWF hne
    have hdset := length_dset_le (evictOldest (c)).memories m.memoryId m
    simp only [if_pos hge]
    omega
  · simp only [if_neg hge]
    have hdset := length_dset_le c.memories m.memoryId m
    omega

theorem addAll_append (c : PreloadCache) (xs ys : List (MemoryItem × ℚ)) :
    addAll c (xs ++ ys) = addAll (addAll c xs) ys := by
  induction xs generalizing c with
  | nil => rfl
  | cons p t ih =>
      obtain ⟨m, tm⟩ := p
      simp [addAll, ih]

/-- Filling a cache with fresh items that fit the capacity simply appends
their entries in insertion order (no eviction fires). -/
theorem addAll_fresh (l : List (MemoryItem × ℚ)) (c : PreloadCache)
    (hWF : CacheWF c)
    (hcap : c.memories.length + l.length ≤ c.maxSize)
    (hfresh : ∀ p ∈ l, p.1.memoryId ∉ dkeys c.memories)
    (hnodup : (l.map (fun p => p.1.memoryId)).Nodup) :
    addAll c l =
      { c with
        memories := c.memories ++ l.map (fun p => (p.1.memoryId, p.1)),
        loadTimes := c.loadTimes ++ l.map (fun p => (p.1.memoryId, p.2)),
        accessCounts := c.accessCounts ++ l.map (fun p => (p.1.memoryId, (0 : ℕ))) } := by
  induction l generalizing c with
  | nil => simp [addAll]
  | cons p rest ih =>
      obtain ⟨m, t⟩ := p
      have hid : m.memoryId ∉ dkeys c.memories :=
        hfresh (m, t) (List.mem_cons_self _ _)
      have hlt : ¬ (c.memories.length ≥ c.maxSize) := by
        simp only [List.length_cons] at hcap
        omega
      have hidLT : m.memoryId ∉ dkeys c.loadTimes := by
        rw [hWF.1]; exact hid
      have hidAC : m.memoryId ∉ dkeys c.accessCounts := by
        rw [hWF.2.1]; exact hid
      have hadd : addMemory c m t =
          { c with
            memories := c.memories ++ [(m.memoryId, m)],
            loadTimes := c.loadTimes ++ [(m.memoryId, t)],
            accessCounts := c.accessCounts ++ [(m.memoryId, (0 : ℕ))] } := by
        unfold addMemory
        simp only [if_neg hlt]
        rw [dset_fresh c.memories m.memoryId m hid,
            dset_fresh c.loadTimes m.memoryId t hidLT,
            dset_fresh c.accessCounts m.memoryId 0 hidAC]
      set c' : PreloadCache :=
        { c with
          memories := c.memories ++ [(m.memoryId, m)],
          loadTimes := c.loadTimes ++ [(m.memoryId, t)],
          accessCounts := c.accessCounts ++ [(m.memoryId, (0 : ℕ))] } with hc'
      have hWF' : CacheWF c' := by
        refine ⟨?_, ?_, ?_⟩
        · show dkeys (c.loadTimes ++ [(m.memoryId, t)]) =
            dkeys (c.memories ++ [(m.memoryId, m)])
          simp [dkeys, hWF.1]
          have := hWF.1
          simp [dkeys] at this
          rw [this]
        · show dkeys (c.accessCounts ++ [(m.memoryId, (0 : ℕ))]) =
            dkeys (c.memories ++ [(m.memoryId, m)])
          have := hWF.2.1
          simp [dkeys] at this ⊢
          rw [this]
        · show (dkeys (c.memories ++ [(m.memoryId, m)])).Nodup
          simp [dkeys, List.nodup_append]
          refine ⟨?_, ?_⟩
          · simpa [dkeys] using hWF.2.2
          · simpa [dkeys] using hid
      rw [show (((m, t) :: rest).map (fun p => p.1.memoryId)) =
            m.memoryId :: rest.map (fun p => p.1.memoryId) from rfl,
          List.nodup_cons] at hnodup
      have hmapnodup : (rest.map (fun p => p.1.memoryId)).Nodup := hnodup.2
      have hfresh' : ∀ p ∈ rest, p.1.memoryId ∉ dkeys c'.memories := by
        intro p hp
        show p.1.memoryId ∉ dkeys (c.memories ++ [(m.memoryId, m)])
        rw [show dkeys (c.memories ++ [(m.memoryId, m)]) =
              dkeys c.memories ++ [m.memoryId] by simp [dkeys]]
        rw [List.mem_append]
        push_neg
        constructor
        · exact hfresh p (List.mem_cons_of_mem _ hp)
        · simp only [List.mem_singleton]
          intro habs
          exact hnodup.1 (habs ▸ List.mem_map_of_mem _ hp)
      have hcap' : c'.memories.length + rest.length ≤ c'.maxSize := by
        show (c.memories ++ [(m.memoryId, m)]).length + rest.length ≤ c.maxSize
        simp only [List.length_append, List.length_cons] at hcap ⊢
        simp only [List.length_cons, List.length_nil]
        omega
      calc addAll c ((m, t) :: rest) = addAll (addMemory c m t) rest := rfl
        _ = addAll c' rest := by rw [hadd]
        _ = _ := by
              rw [ih c' hWF' hcap' hfresh' hmapnodup]
              simp [hc', List.append_assoc]

theorem addAll_bounded (l : List (MemoryItem × ℚ)) (c : PreloadCache)
    (hWF : CacheWF c) (h1 : 1 ≤ c.maxSize) (hlen : c.memories.length ≤ c.maxSize) :
    CacheWF (addAll c l) ∧ (addAll c l).maxSize = c.maxSize ∧
      (addAll c l).memories.length ≤ c.maxSize := by
  induction l generalizing c with
  | nil => exact ⟨hWF, rfl, hlen⟩
  | cons p rest ih =>
      obtain ⟨m, t⟩ := p
      have hWF1 : CacheWF (addMemory c m t) := cacheWF_addMemory c m t hWF
      have hms : (addMemory c m t).maxSize = c.maxSize := addMemory_maxSize c m t
      have hlen1 : (addMemory c m t).memories.length ≤ (addMemory c m t).maxSize := by
        rw [hms]; exact addMemory_length_le c m t hWF h1 hlen
      have h1' : 1 ≤ (addMemory c m t).maxSize := by rw [hms]; exact h1
      obtain ⟨hW, hM, hL⟩ := ih (addMemory c m t) hWF1 h1' hlen1
      rw [show addAll c ((m, t) :: rest) = addAll (addMemory c m t) rest from rfl]
      rw [hms] at hM hL
      exact ⟨hW, hM, hL⟩

/-- When the cache is at (or above) capacity, `add_memory` first evicts the
entry named by `argminFirst` and then writes the new binding. -/
theorem addMemory_full_evict (c : PreloadCache) (m : MemoryItem) (now : ℚ)
    (hge : c.memories.length ≥ c.maxSize)
    (oid : String) (hmin : argminFirst c.loadTimes = some oid) :
    addMemory c m now =
      { c with
        memories := dset (dremove c.memories oid) m.memoryId m,
        loadTimes := dset (dremove c.loadTimes oid) m.memoryId now,
        accessCounts := dset (dremove c.accessCounts oid) m.memoryId 0 } := by
  unfold addMemory evictOldest
  rw [if_pos hge, hmin]

/-- C7: starting from an empty preload cache of positive capacity
`maxSize`, (a) no insertion sequence ever pushes the entry count above
`maxSize`, and (b) inserting `maxSize + 1` distinct items with strictly
increasing load times leaves exactly `maxSize` entries and evicts the
first-loaded (oldest) item. -/
theorem preloadCache_capacity_invariant (maxSize : ℕ) (h1 : 1 ≤ maxSize) :
    (∀ l : List (MemoryItem × ℚ),
       (addAll (emptyCache maxSize) l).memories.length ≤ maxSize) ∧
    (∀ (first last : MemoryItem × ℚ) (mid : List (MemoryItem × ℚ)),
       mid.length + 1 = maxSize →
       ((((first :: mid) ++ [last]).map (fun p => p.1.memoryId)).Nodup) →
       ((((first :: mid) ++ [last]).map Prod.snd).Pairwise (· < ·)) →
       (addAll (emptyCache maxSize) ((first :: mid) ++ [last])).memories.length
           = maxSize ∧
       dget? (addAll (emptyCache maxSize) ((first :: mid) ++ [last])).memories
           first.1.memoryId = none) := by
  constructor
  · intro l
    exact (addAll_bounded l (emptyCache maxSize) (cacheWF_empty maxSize) h1
      (by simp [emptyCache])).2.2
  · intro first last mid hlen hnodup hmono
    -- names for the inserted entries
    set firstId := first.1.memoryId with hfid
    set lastId := last.1.memoryId with hlid
    set midME : List (String × MemoryItem) :=
      mid.map (fun p => (p.1.memoryId, p.1)) with hmidME
    set midLT : List (String × ℚ) :=
      mid.map (fun p => (p.1.memoryId, p.2)) with hmidLT
    set midAC : List (String × ℕ) :=
      mid.map (fun p => (p.1.memoryId, (0 : ℕ))) with hmidAC
    -- decompose the Nodup hypothesis
    rw [show (((first :: mid) ++ [last]).map (fun p => p.1.memoryId)) =
          firstId :: (mid.map (fun p => p.1.memoryId) ++ [lastId]) by simp,
        List.nodup_cons] at hnodup
    obtain ⟨hfirstNotIn, hrestNodup⟩ := hnodup
    rw [List.nodup_append] at hrestNodup
    have hlastNotMid : lastId ∉ mid.map (fun p => p.1.memoryId) := by
      intro habs
      exact (hrestNodup.2.2 habs (List.mem_singleton.mpr rfl))
    have hfirstNotMid : firstId ∉ mid.map (fun p => p.1.memoryId) := by
      intro habs
      exact hfirstNotIn (List.mem_append.mpr (Or.inl habs))
    have hfirstNeLast : firstId ≠ lastId := by
      intro habs
      exact hfirstNotIn (List.mem_append.mpr (Or.inr (by simp [habs])))
    -- decompose the monotone-times hypothesis
    rw [show (((first :: mid) ++ [last]).map Prod.snd) =
          first.2 :: (mid.map Prod.snd ++ [last.2]) by simp,
        List.pairwise_cons] at hmono
    have hfirstLtMid : ∀ q ∈ midLT, first.2 < q.2 := by
      intro q hq
      rw [hmidLT, List.mem_map] at hq
      obtain ⟨p, hp, hpq⟩ := hq
      have hm : p.2 ∈ mid.map Prod.snd ++ [last.2] :=
        List.mem_append.mpr (Or.inl (List.mem_map_of_mem Prod.snd hp))
      have hlt := hmono.1 p.2 hm
      rw [← hpq]
      exact hlt
    have hkeysME : dkeys midME = mid.map (fun p => p.1.memoryId) := by
      rw [hmidME]
      simp [dkeys, List.map_map, Function.comp]
    have hlenME : midME.length = mid.length := by
      rw [hmidME]; exact List.length_map _ _
    -- the first maxSize insertions fill the cache without eviction
    have hinit := addAll_fresh ((first :: mid)) (emptyCache maxSize)
      (cacheWF_empty maxSize)
      (by simp [emptyCache]; omega)
      (by intro p hp; simp [emptyCache, dkeys])
      (by
        have : ((first :: mid).map (fun p => p.1.memoryId)).Nodup := by
          rw [show ((first :: mid).map (fun p => p.1.memoryId)) =
                firstId :: mid.map (fun p => p.1.memoryId) by simp]
          exact List.nodup_cons.mpr ⟨hfirstNotMid, hrestNodup.1⟩
        exact this)
    have hC : addAll (emptyCache maxSize) (first :: mid) =
        { memories := (firstId, first.1) :: midME,
          loadTimes := (firstId, first.2) :: midLT,
          accessCounts := (firstId, (0 : ℕ)) :: midAC,
          hitRate := 0, maxSize := maxSize } := by
      rw [hinit]
      simp [emptyCache, hmidME, hmidLT, hmidAC]
    set C : PreloadCache :=
      { memories := (firstId, first.1) :: midME,
        loadTimes := (firstId, first.2) :: midLT,
        accessCounts := (firstId, (0 : ℕ)) :: midAC,
        hitRate := 0, maxSize := maxSize } with hCdef
    have hlastFresh : lastId ∉ dkeys midME := by
      rw [hkeysME]; exact hlastNotMid
    have hfirstFreshMid : firstId ∉ dkeys midME := by
      rw [hkeysME]; exact hfirstNotMid
    have hge : C.memories.length ≥ C.maxSize := by
      show ((firstId, first.1) :: midME).length ≥ maxSize
      rw [List.length_cons, hlenME]
      omega
    have hmin : argminFirst C.loadTimes = some firstId :=
      argminFirst_of_increasing (firstId, first.2) midLT hfirstLtMid
    rw [addAll_append, hC]
    show (addMemory C last.1 last.2).memories.length = maxSize ∧
      dget? (addMemory C last.1 last.2).memories firstId = none
    rw [addMemory_full_evict C last.1 last.2 hge firstId hmin]
    show (dset (dremove C.memories firstId) last.1.memoryId last.1).length = maxSize ∧
      dget? (dset (dremove C.memories firstId) last.1.memoryId last.1) firstId = none
    have hmem1 : dremove C.memories firstId = midME := by
      show dremove ((firstId, first.1) :: midME) firstId = midME
      rw [dremove_cons_self, dremove_not_mem _ _ hfirstFreshMid]
    rw [hmem1]
    rw [show last.1.memoryId = lastId from rfl]
    rw [dset_fresh midME lastId last.1 hlastFresh]
    constructor
    · rw [List.length_append, hlenME]
      simp
      omega
    · rw [dget?_append]
      rw [dget?_eq_none_of_not_mem midME firstId hfirstFreshMid]
      simp [dget?, hfirstNeLast.symm]

/-- Witness for `preloadCache_capacity_invariant`: capacity 2, three distinct
items with increasing load times; the first one is evicted. -/
theorem preloadCache_capacity_invariant_witness :
    (addAll (emptyCache 2)
        [(({ memoryId := "a" } : MemoryItem), (0 : ℚ)), ({ memoryId := "b" }, 1),
         ({ memoryId := "c" }, 2)]).memories.length ≤ 2 ∧
    (addAll (emptyCache 2)
        (((({ memoryId := "a" } : MemoryItem), (0 : ℚ)) :: [({ memoryId := "b" }, 1)])
          ++ [({ memoryId := "c" }, 2)])).memories.length = 2 ∧
    dget? (addAll (emptyCache 2)
        (((({ memoryId := "a" } : MemoryItem), (0 : ℚ)) :: [({ memoryId := "b" }, 1)])
          ++ [({ memoryId := "c" }, 2)])).memories "a" = none :=
  ⟨(preloadCache_capacity_invariant 2 (by decide)).1 _,
   ((preloadCache_capacity_invariant 2 (by decide)).2
      ({ memoryId := "a" }, 0) ({ memoryId := "c" }, 2)
      [({ memoryId := "b" }, 1)] (by decide) (by decide) (by decide)).1,
   ((preloadCache_capacity_invariant 2 (by decide)).2
      ({ memoryId := "a" }, 0) ({ memoryId := "c" }, 2)
      [({ memoryId := "b" }, 1)] (by decide) (by decide) (by decide)).2⟩

/-- C10: if the cache is exactly at capacity and `add_memory` is called with
an id that is *already cached*, the source still evicts the entry with the
oldest load time first; when that oldest entry is a different id, the cache
ends up one entry *below* capacity and the oldest entry is gone. -/
theorem addMemory_reinsert_at_capacity (c : PreloadCache) (m : MemoryItem)
    (now : ℚ) (hWF : CacheWF c)
    (hfull : c.memories.length = c.maxSize)
    (hmem : m.memoryId ∈ dkeys c.memories)
    (oid : String) (hoid : argminFirst c.loadTimes = some oid)
    (hne : oid ≠ m.memoryId) :
    (addMemory c m now).memories.length + 1 = c.maxSize ∧
    dget? (addMemory c m now).memories oid = none := by
  have hge : c.memories.length ≥ c.maxSize := le_of_eq hfull.symm
  rw [addMemory_full_evict c m now hge oid hoid]
  have hoidmem : oid ∈ dkeys c.memories := by
    rw [← hWF.1]; exact argminFirst_mem _ _ hoid
  have hrem := length_dremove_mem c.memories oid hWF.2.2 hoidmem
  have hmmem : m.memoryId ∈ dkeys (dremove c.memories oid) := by
    rw [mem_dkeys_dremove]
    exact ⟨hmem, fun h => hne h.symm⟩
  constructor
  · show (dset (dremove c.memories oid) m.memoryId m).length + 1 = c.maxSize
    rw [length_dset, if_pos hmmem]
    omega
  · show dget? (dset (dremove c.memories oid) m.memoryId m) oid = none
    rw [dget?_dset_ne _ _ _ _ hne]
    exact dget?_dremove_self _ _

/-- Witness for `addMemory_reinsert_at_capacity`: a capacity-2 cache holding
`a` (older) and `b`; re-adding `b` evicts `a` and leaves one entry. -/
theorem addMemory_reinsert_at_capacity_witness :
    (addMemory
        (addAll (emptyCache 2)
          [(({ memoryId := "a" } : MemoryItem), (0 : ℚ)), ({ memoryId := "b" }, 1)])
        { memoryId := "b" } 2).memories.length + 1 = 2 ∧
    dget? (addMemory
        (addAll (emptyCache 2)
          [(({ memoryId := "a" } : MemoryItem), (0 : ℚ)), ({ memoryId := "b" }, 1)])
        { memoryId := "b" } 2).memories "a" = none :=
  addMemory_reinsert_at_capacity
    (addAll (emptyCache 2)
      [(({ memoryId := "a" } : MemoryItem), (0 : ℚ)), ({ memoryId := "b" }, 1)])
    { memoryId := "b" } 2
    ⟨by decide, by decide, by decide⟩ (by decide) (by decide) "a" (by decide) (by decide)

/-- A concrete reachable cache: `a` and `b` preloaded, then `a` fetched three
times, so the access counts are `a ↦ 3`, `b ↦ 0`. -/
def hitRateExampleCache : PreloadCache :=
  (getMemory
    ((getMemory
      ((getMemory
        (addAll (emptyCache 1000)
          [(({ memoryId := "a" } : MemoryItem), (0 : ℚ)), ({ memoryId := "b" }, 1)])
        "a").2) "a").2) "a").2

/-- C5 counterexample: the source computes `1 hit / max(1, 3 total accesses)
= 1/3`, while the spec's 'fraction of cached entries with at least one
recorded access' is `1/2`. -/
theorem updateHitRate_counterexample :
    (updateHitRate hitRateExampleCache).hitRate = 1/3 ∧
    hitRateSpec hitRateExampleCache = 1/2 ∧
    (updateHitRate hitRateExampleCache).hitRate ≠ hitRateSpec hitRateExampleCache := by
  refine ⟨?_, ?_, ?_⟩ <;>
    norm_num +decide [hitRateExampleCache, updateHitRate, hitRateSpec, getMemory,
      addAll, addMemory, emptyCache, evictOldest, argminFirst, minByVal,
      dset, dget?, dupdate, dgetD, dremove]

theorem hits_le_sum (l : List (String × ℕ)) :
    (l.filter (fun kv => 0 < kv.2)).length ≤ (l.map Prod.snd).sum := by
  induction l with
  | nil => simp
  | cons kv t ih =>
      obtain ⟨k, v⟩ := kv
      by_cases h : 0 < v
      · simp only [List.filter_cons, List.map_cons, List.sum_cons]
        rw [if_pos (by simpa using h)]
        simp only [List.length_cons]
        omega
      · simp only [List.filter_cons, List.map_cons, List.sum_cons]
        rw [if_neg (by simpa using h)]
        omega

/-- C5 (amended): `update_hit_rate` sets the hit rate to the number of
entries with a positive access count divided by `max 1 (sum of all access
counts)` — not by the number of cached entries — and that value always lies
in `[0, 1]`. -/
theorem updateHitRate_amended (c : PreloadCache) :
    (updateHitRate c).hitRate =
      ((c.accessCounts.filter (fun kv => 0 < kv.2)).length : ℚ) /
        ((max 1 ((c.accessCounts.map Prod.snd).sum) : ℕ) : ℚ) ∧
    0 ≤ (updateHitRate c).hitRate ∧ (updateHitRate c).hitRate ≤ 1 := by
  refine ⟨rfl, ?_, ?_⟩
  · show (0 : ℚ) ≤ _ / _
    apply div_nonneg (Nat.cast_nonneg _) (Nat.cast_nonneg _)
  · show (_ : ℚ) / _ ≤ 1
    rw [div_le_one (by
      have : 1 ≤ max 1 ((c.accessCounts.map Prod.snd).sum) := le_max_left _ _
      exact_mod_cast Nat.lt_of_lt_of_le Nat.zero_lt_one this)]
    have h1 : (c.accessCounts.filter (fun kv => 0 < kv.2)).length ≤
        max 1 ((c.accessCounts.map Prod.snd).sum) :=
      le_trans (hits_le_sum c.accessCounts) (le_max_right _ _)
    exact_mod_cast h1

/-! ## Item store (`semantic_storage.py`, class `SemanticMemoryStore`)

The store keeps the canonical map `memories`, the tag index `memory_index`
(tag → set of memory ids) and the context index `context_index`
(context key → set of memory ids). A Python `set` of ids is modelled as a
duplicate-free list (built by append-if-absent). The `stats` dictionary is
reduced to its `total_memories` entry; the embedding-manager and disk-I/O
branches (`self.embedding_manager` is `None` here) do not affect the maps. -/

structure SemanticMemoryStore where
  memories : List (String × MemoryItem) := []
  memoryIndex : List (String × List String) := []
  contextIndex : List (String × List String) := []
  totalMemories : ℕ := 0
deriving DecidableEq, Repr

def emptyStore : SemanticMemoryStore := {}

/-- The id set an index associates to a key (absent key = empty set). -/
def idxIds (idx : List (String × List String)) (key : String) : List String :=
  (dget? idx key).getD []

/-- `if key not in index: index[key] = set()` followed by `index[key].add(id)`. -/
def idxAdd (idx : List (String × List String)) (key id : String) :
    List (String × List String) :=
  match dget? idx key with
  | none => dset idx key [id]
  | some ids => dset idx key (if id ∈ ids then ids else ids ++ [id])

/-- `index[key].discard(id)` followed by `if not index[key]: del index[key]`. -/
def idxDiscard (idx : List (String × List String)) (key id : String) :
    List (String × List String) :=
  match dget? idx key with
  | none => idx
  | some ids =>
      let ids' := ids.erase id
      if ids' = [] then dremove idx key else dset idx key ids'

/-- Python truthiness of an optional string: `None` and `""` are falsy. -/
def pyTruthy : Option String → Bool
  | none => false
  | some s => s ≠ ""

/-- The context keys `_update_indexes`/`_remove_from_indexes` derive from an
item: `"project:X"` when the context has a (truthy) project and `"user:Y"`
when it has a (truthy) user; nothing when the item has no context. -/
def contextKeys (m : MemoryItem) : List String :=
  match m.context with
  | none => []
  | some c =>
      (match c.project with
        | none => []
        | some p => if p = "" then [] else ["project:" ++ p]) ++
      (match c.user with
        | none => []
        | some u => if u = "" then [] else ["user:" ++ u])

/-- `SemanticMemoryStore._update_indexes`. -/
def updateIndexes (S : SemanticMemoryStore) (m : MemoryItem) :
    SemanticMemoryStore :=
  { S with
    memoryIndex :=
      m.tags.foldl (fun idx tag => idxAdd idx tag m.memoryId) S.memoryIndex,
    contextIndex :=
      (contextKeys m).foldl (fun idx key => idxAdd idx key m.memoryId)
        S.contextIndex }

/-- `SemanticMemoryStore._remove_from_indexes`. -/
def removeFromIndexes (S : SemanticMemoryStore) (m : MemoryItem) :
    SemanticMemoryStore :=
  { S with
    memoryIndex :=
      m.tags.foldl (fun idx tag => idxDiscard idx tag m.memoryId) S.memoryIndex,
    contextIndex :=
      (contextKeys m).foldl (fun idx key => idxDiscard idx key m.memoryId)
        S.contextIndex }

/-- `SemanticMemoryStore.store_memory`: stores the item under its id, updates
the indexes, refreshes `stats['total_memories']` and returns the id.
There is no emptiness check on the content and the fingerprint is not
recomputed here. -/
def storeMemory (S : SemanticMemoryStore) (m : MemoryItem) :
    String × SemanticMemoryStore :=
  let S1 := { S with memories := dset S.memories m.memoryId m }
  let S2 := updateIndexes S1 m
  (m.memoryId, { S2 with totalMemories := S2.memories.length })

/-- `SemanticMemoryStore.update_memory`: patch the given fields (recomputing
the fingerprint when content changes), stamp `updated_at`, and call
`_update_indexes` — which only *adds* entries for the new tags/context keys;
nothing removes entries for the old ones. -/
def updateMemory (S : SemanticMemoryStore) (memoryId : String)
    (content? : Option String) (context? : Option MemoryContext)
    (tags? : Option (List String)) (importance? : Option ℚ)
    (hash : String → String) (now : ℚ) : Bool × SemanticMemoryStore :=
  match dget? S.memories memoryId with
  | none => (false, S)
  | some m =>
      let m1 := match content? with
        | none => m
        | some c => { m with content := c, contentHash := hash c }
      let m2 := match context? with
        | none => m1
        | some c => { m1 with context := some c }
      let m3 := match tags? with
        | none => m2
        | some ts => { m2 with tags := ts }
      let m4 := match importance? with
        | none => m3
        | some i => { m3 with importance := i }
      let m5 := { m4 with updatedAt := now }
      let S1 := { S with memories := dset S.memories memoryId m5 }
      (true, updateIndexes S1 m5)

/-- `SemanticMemoryStore.delete_memory`: remove from the indexes (driven by
the item's current tags/context), then from the canonical map. -/
def deleteMemory (S : SemanticMemoryStore) (memoryId : String) :
    Bool × SemanticMemoryStore :=
  match dget? S.memories memoryId with
  | none => (false, S)
  | some m =>
      let S1 := removeFromIndexes S m
      let S2 := { S1 with memories := dremove S1.memories memoryId }
      (true, { S2 with totalMemories := S2.memories.length })

/-! ### The index-agreement invariant (claim C1) -/

/-- Every tag maps to exactly the ids of stored items carrying that tag. -/
def TagAgrees (S : SemanticMemoryStore) : Prop :=
  ∀ tag id, id ∈ idxIds S.memoryIndex tag ↔
    ∃ m, dget? S.memories id = some m ∧ tag ∈ m.tags

/-- Every context key maps to exactly the ids of stored items whose context
produces that key. -/
def CtxAgrees (S : SemanticMemoryStore) : Prop :=
  ∀ key id, id ∈ idxIds S.contextIndex key ↔
    ∃ m, dget? S.memories id = some m ∧ key ∈ contextKeys m

/-- All id sets of an index are duplicate-free (they model Python sets). -/
def IdxNodup (idx : List (String × List String)) : Prop :=
  ∀ key, (idxIds idx key).Nodup

/-- Each stored item sits under its own id (`store_memory` always uses
`memory_item.memory_id` as the map key). -/
def KeysMatch (S : SemanticMemoryStore) : Prop :=
  ∀ id m, dget? S.memories id = some m → m.memoryId = id

/-- The store invariant claimed by the spec, plus the structural facts the
source maintains implicitly (duplicate-free keys and sets, items keyed by
their own id). -/
def StoreInv (S : SemanticMemoryStore) : Prop :=
  (dkeys S.memories).Nodup ∧ KeysMatch S ∧ IdxNodup S.memoryIndex ∧
    IdxNodup S.contextIndex ∧ TagAgrees S ∧ CtxAgrees S

theorem dget?_isSome_of_mem {α : Type} [DecidableEq α] {β : Type}
    (d : List (α × β)) (k : α) (h : k ∈ dkeys d) : ∃ v, dget? d k = some v := by
  induction d with
  | nil => simp [dkeys] at h
  | cons kv t ih =>
      obtain ⟨k₀, v₀⟩ := kv
      by_cases h₀ : k₀ = k
      · exact ⟨v₀, by simp [dget?, h₀]⟩
      · rw [dkeys_cons, List.mem_cons] at h
        rcases h with h | h
        · exact absurd h.symm h₀
        · obtain ⟨v, hv⟩ := ih h
          exact ⟨v, by simp [dget?, h₀, hv]⟩

theorem not_mem_dkeys_of_dget?_none {α : Type} [DecidableEq α] {β : Type}
    (d : List (α × β)) (k : α) (h : dget? d k = none) : k ∉ dkeys d := by
  intro hk
  obtain ⟨v, hv⟩ := dget?_isSome_of_mem d k hk
  rw [h] at hv
  cases hv

theorem idxIds_dset (idx : List (String × List String)) (k : String)
    (v : List String) (k' : String) :
    idxIds (dset idx k v) k' = if k' = k then v else idxIds idx k' := by
  unfold idxIds
  by_cases h : k' = k
  · subst h
    rw [dget?_dset_self]
    simp
  · rw [dget?_dset_ne _ _ _ _ h]
    simp [h]

theorem idxIds_dremove (idx : List (String × List String)) (k k' : String) :
    idxIds (dremove idx k) k' = if k' = k then [] else idxIds idx k' := by
  unfold idxIds
  by_cases h : k' = k
  · subst h
    rw [dget?_dremove_self]
    simp
  · rw [dget?_dremove_ne _ _ _ h]
    simp [h]

theorem mem_idxAdd (idx : List (String × List String)) (key id k' id' : String) :
    id' ∈ idxIds (idxAdd idx key id) k' ↔
      id' ∈ idxIds idx k' ∨ (id' = id ∧ k' = key) := by
  unfold idxAdd
  cases hk : dget? idx key with
  | none =>
      rw [idxIds_dset]
      by_cases h : k' = key
      · subst h
        have hempty : idxIds idx k' = [] := by unfold idxIds; rw [hk]; rfl
        simp [hempty]
      · simp [h]
  | some ids =>
      rw [idxIds_dset]
      have hids : idxIds idx key = ids := by unfold idxIds; rw [hk]; rfl
      by_cases h : k' = key
      · subst h
        rw [if_pos rfl, hids]
        by_cases hmem : id ∈ ids
        · rw [if_pos hmem]
          constructor
          · intro hin; exact Or.inl hin
          · rintro (hin | ⟨rfl, -⟩)
            · exact hin
            · exact hmem
        · rw [if_neg hmem]
          simp [List.mem_append]
      · simp [h]

theorem idxNodup_idxAdd (idx : List (String × List String)) (key id : String)
    (h : IdxNodup idx) : IdxNodup (idxAdd idx key id) := by
  intro k'
  unfold idxAdd
  cases hk : dget? idx key with
  | none =>
      rw [idxIds_dset]
      by_cases hkk : k' = key
      · simp [hkk]
      · simp [hkk]; exact h k'
  | some ids =>
      rw [idxIds_dset]
      have hids : idxIds idx key = ids := by unfold idxIds; rw [hk]; rfl
      by_cases hkk : k' = key
      · subst hkk
        rw [if_pos rfl]
        by_cases hmem : id ∈ ids
        · rw [if_pos hmem, ← hids]; exact h k'
        · rw [if_neg hmem]
          rw [List.nodup_append]
          refine ⟨by rw [← hids]; exact h k', by simp, ?_⟩
          intro x hx hxid
          rw [List.mem_singleton] at hxid
          exact hmem (hxid ▸ hx)
      · simp [hkk]; exact h k'

theorem mem_foldl_idxAdd (tags : List String) (idx : List (String × List String))
    (id k' id' : String) :
    id' ∈ idxIds (tags.foldl (fun i t => idxAdd i t id) idx) k' ↔
      id' ∈ idxIds idx k' ∨ (id' = id ∧ k' ∈ tags) := by
  induction tags generalizing idx with
  | nil => simp
  | cons t ts ih =>
      rw [List.foldl_cons, ih, mem_idxAdd]
      simp only [List.mem_cons]
      tauto

theorem idxNodup_foldl_idxAdd (tags : List String)
    (idx : List (String × List String)) (id : String) (h : IdxNodup idx) :
    IdxNodup (tags.foldl (fun i t => idxAdd i t id) idx) := by
  induction tags generalizing idx with
  | nil => exact h
  | cons t ts ih =>
      rw [List.foldl_cons]
      exact ih _ (idxNodup_idxAdd _ _ _ h)

theorem mem_idxDiscard (idx : List (String × List String)) (key id k' id' : String)
    (hnd : IdxNodup idx) :
    id' ∈ idxIds (idxDiscard idx key id) k' ↔
      id' ∈ idxIds idx k' ∧ ¬(id' = id ∧ k' = key) := by
  unfold idxDiscard
  cases hk : dget? idx key with
  | none =>
      have hempty : idxIds idx key = [] := by unfold idxIds; rw [hk]; rfl
      by_cases h : k' = key
      · subst h
        simp [hempty]
      · simp [h]
  | some ids =>
      have hids : idxIds idx key = ids := by unfold idxIds; rw [hk]; rfl
      have hnds : ids.Nodup := hids ▸ hnd key
      simp only
      by_cases he : ids.erase id = []
      · rw [if_pos he]
        rw [idxIds_dremove]
        by_cases h : k' = key
        · subst h
          rw [if_pos rfl, hids]
          constructor
          · intro hin
            exact absurd hin (List.not_mem_nil id')
          · rintro ⟨hin, hni⟩
            have hne : id' ≠ id := fun habs => hni ⟨habs, rfl⟩
            have hmem' : id' ∈ ids.erase id := (List.mem_erase_of_ne hne).mpr hin
            rw [he] at hmem'
            exact absurd hmem' (List.not_mem_nil id')
        · simp [h]
      · rw [if_neg he]
        rw [idxIds_dset]
        by_cases h : k' = key
        · subst h
          rw [if_pos rfl, hids, List.Nodup.mem_erase_iff hnds]
          constructor
          · rintro ⟨hne, hin⟩
            exact ⟨hin, fun habs => hne habs.1⟩
          · rintro ⟨hin, hni⟩
            exact ⟨fun habs => hni ⟨habs, rfl⟩, hin⟩
        · simp [h]

theorem idxNodup_idxDiscard (idx : List (String × List String)) (key id : String)
    (h : IdxNodup idx) : IdxNodup (idxDiscard idx key id) := by
  intro k'
  unfold idxDiscard
  cases hk : dget? idx key with
  | none => exact h k'
  | some ids =>
      have hids : idxIds idx key = ids := by unfold idxIds; rw [hk]; rfl
      simp only
      by_cases he : ids.erase id = []
      · rw [if_pos he, idxIds_dremove]
        by_cases hkk : k' = key
        · simp [hkk]
        · simp [hkk]; exact h k'
      · rw [if_neg he, idxIds_dset]
        by_cases hkk : k' = key
        · rw [if_pos hkk]
          exact (hids ▸ h key).erase id
        · rw [if_neg hkk]
          exact h k'

theorem mem_foldl_idxDiscard (tags : List String)
    (idx : List (String × List String)) (id k' id' : String) (hnd : IdxNodup idx) :
    id' ∈ idxIds (tags.foldl (fun i t => idxDiscard i t id) idx) k' ↔
      id' ∈ idxIds idx k' ∧ ¬(id' = id ∧ k' ∈ tags) := by
  induction tags generalizing idx with
  | nil => simp
  | cons t ts ih =>
      rw [List.foldl_cons, ih _ (idxNodup_idxDiscard _ _ _ hnd),
          mem_idxDiscard _ _ _ _ _ hnd]
      simp only [List.mem_cons]
      tauto

theorem idxNodup_foldl_idxDiscard (tags : List String)
    (idx : List (String × List String)) (id : String) (h : IdxNodup idx) :
    IdxNodup (tags.foldl (fun i t => idxDiscard i t id) idx) := by
  induction tags generalizing idx with
  | nil => exact h
  | cons t ts ih =>
      rw [List.foldl_cons]
      exact ih _ (idxNodup_idxDiscard _ _ _ h)

/-! ### Index agreement under put / delete / update (claims C1, C2) -/

theorem storeInv_storeMemory (S : SemanticMemoryStore) (m : MemoryItem)
    (hInv : StoreInv S) (hfresh : dget? S.memories m.memoryId = none) :
    StoreInv (storeMemory S m).2 := by
  obtain ⟨hnd, hkm, hmn, hcn, hta, hca⟩ := hInv
  have hnotmem := not_mem_dkeys_of_dget?_none _ _ hfresh
  have hmemEq : (storeMemory S m).2.memories = dset S.memories m.memoryId m := rfl
  have hmiEq : (storeMemory S m).2.memoryIndex =
      m.tags.foldl (fun idx tag => idxAdd idx tag m.memoryId) S.memoryIndex := rfl
  have hciEq : (storeMemory S m).2.contextIndex =
      (contextKeys m).foldl (fun idx key => idxAdd idx key m.memoryId)
        S.contextIndex := rfl
  refine ⟨?_, ?_, ?_, ?_, ?_, ?_⟩
  · rw [hmemEq, dkeys_dset, if_neg hnotmem, List.nodup_append]
    refine ⟨hnd, List.nodup_singleton _, ?_⟩
    intro x hx hx1
    rw [List.mem_singleton] at hx1
    exact hnotmem (hx1 ▸ hx)
  · intro id mm hmm
    rw [hmemEq] at hmm
    by_cases hid : id = m.memoryId
    · subst hid
      rw [dget?_dset_self] at hmm
      injection hmm with h
      rw [← h]
    · rw [dget?_dset_ne _ _ _ _ hid] at hmm
      exact hkm id mm hmm
  · rw [hmiEq]; exact idxNodup_foldl_idxAdd _ _ _ hmn
  · rw [hciEq]; exact idxNodup_foldl_idxAdd _ _ _ hcn
  · intro tag id
    rw [hmiEq, hmemEq, mem_foldl_idxAdd]
    by_cases hid : id = m.memoryId
    · subst hid
      rw [dget?_dset_self]
      constructor
      · rintro (hold | ⟨-, htag⟩)
        · rcases (hta tag _).mp hold with ⟨m', hm', -⟩
          rw [hfresh] at hm'
          cases hm'
        · exact ⟨m, rfl, htag⟩
      · rintro ⟨m', hm', htag⟩
        injection hm' with h
        subst h
        exact Or.inr ⟨rfl, htag⟩
    · rw [dget?_dset_ne _ _ _ _ hid]
      constructor
      · rintro (hold | ⟨habs, -⟩)
        · exact (hta tag id).mp hold
        · exact absurd habs hid
      · intro hex
        exact Or.inl ((hta tag id).mpr hex)
  · intro key id
    rw [hciEq, hmemEq, mem_foldl_idxAdd]
    by_cases hid : id = m.memoryId
    · subst hid
      rw [dget?_dset_self]
      constructor
      · rintro (hold | ⟨-, hkey⟩)
        · rcases (hca key _).mp hold with ⟨m', hm', -⟩
          rw [hfresh] at hm'
          cases hm'
        · exact ⟨m, rfl, hkey⟩
      · rintro ⟨m', hm', hkey⟩
        injection hm' with h
        subst h
        exact Or.inr ⟨rfl, hkey⟩
    · rw [dget?_dset_ne _ _ _ _ hid]
      constructor
      · rintro (hold | ⟨habs, -⟩)
        · exact (hca key id).mp hold
        · exact absurd habs hid
      · intro hex
        exact Or.inl ((hca key id).mpr hex)

theorem storeInv_deleteMemory (S : SemanticMemoryStore) (id₀ : String)
    (hInv : StoreInv S) : StoreInv (deleteMemory S id₀).2 := by
  obtain ⟨hnd, hkm, hmn, hcn, hta, hca⟩ := hInv
  cases hg : dget? S.memories id₀ with
  | none =>
      have hres : (deleteMemory S id₀).2 = S := by
        simp only [deleteMemory, hg]
      rw [hres]
      exact ⟨hnd, hkm, hmn, hcn, hta, hca⟩
  | some m =>
      have hmid : m.memoryId = id₀ := hkm _ _ hg
      have hmemEq : (deleteMemory S id₀).2.memories = dremove S.memories id₀ := by
        simp only [deleteMemory, hg, removeFromIndexes]
      have hmiEq : (deleteMemory S id₀).2.memoryIndex =
          m.tags.foldl (fun idx tag => idxDiscard idx tag m.memoryId)
            S.memoryIndex := by
        simp only [deleteMemory, hg, removeFromIndexes]
      have hciEq : (deleteMemory S id₀).2.contextIndex =
          (contextKeys m).foldl (fun idx key => idxDiscard idx key m.memoryId)
            S.contextIndex := by
        simp only [deleteMemory, hg, removeFromIndexes]
      refine ⟨?_, ?_, ?_, ?_, ?_, ?_⟩
      · rw [hmemEq, dkeys_dremove]
        exact hnd.filter _
      · intro id mm hmm
        rw [hmemEq] at hmm
        by_cases hid : id = id₀
        · subst hid
          rw [dget?_dremove_self] at hmm
          cases hmm
        · rw [dget?_dremove_ne _ _ _ hid] at hmm
          exact hkm id mm hmm
      · rw [hmiEq]; exact idxNodup_foldl_idxDiscard _ _ _ hmn
      · rw [hciEq]; exact idxNodup_foldl_idxDiscard _ _ _ hcn
      · intro tag id
        rw [hmiEq, hmemEq, mem_foldl_idxDiscard _ _ _ _ _ hmn, hmid]
        by_cases hid : id = id₀
        · subst hid
          rw [dget?_dremove_self]
          constructor
          · rintro ⟨hold, hni⟩
            rcases (hta tag _).mp hold with ⟨m', hm', htag'⟩
            rw [hg] at hm'
            injection hm' with h
            subst h
            exact absurd ⟨rfl, htag'⟩ hni
          · rintro ⟨m', hm', -⟩
            cases hm'
        · rw [dget?_dremove_ne _ _ _ hid]
          constructor
          · rintro ⟨hold, -⟩
            exact (hta tag id).mp hold
          · intro hex
            exact ⟨(hta tag id).mpr hex, fun habs => hid habs.1⟩
      · intro key id
        rw [hciEq, hmemEq, mem_foldl_idxDiscard _ _ _ _ _ hcn, hmid]
        by_cases hid : id = id₀
        · subst hid
          rw [dget?_dremove_self]
          constructor
          · rintro ⟨hold, hni⟩
            rcases (hca key _).mp hold with ⟨m', hm', hkey'⟩
            rw [hg] at hm'
            injection hm' with h
            subst h
            exact absurd ⟨rfl, hkey'⟩ hni
          · rintro ⟨m', hm', -⟩
            cases hm'
        · rw [dget?_dremove_ne _ _ _ hid]
          constructor
          · rintro ⟨hold, -⟩
            exact (hca key id).mp hold
          · intro hex
            exact ⟨(hca key id).mpr hex, fun habs => hid habs.1⟩

theorem updateMemory_adds_new_tags (S : SemanticMemoryStore) (id : String)
    (ts : List String) (hash : String → String) (now : ℚ) (m : MemoryItem)
    (hg : dget? S.memories id = some m) :
    ∀ tag ∈ ts, m.memoryId ∈
      idxIds (updateMemory S id none none (some ts) none hash now).2.memoryIndex
        tag := by
  intro tag htag
  have hmi : (updateMemory S id none none (some ts) none hash now).2.memoryIndex =
      ts.foldl (fun idx t => idxAdd idx t m.memoryId) S.memoryIndex := by
    simp only [updateMemory, hg, updateIndexes]
  rw [hmi, mem_foldl_idxAdd]
  exact Or.inr ⟨rfl, htag⟩

/-- C1 (amended): the tag/context indexes agree with the canonical map after
every put of a fresh id and after every delete; an update *adds* index
entries for the new tags — it does not remove entries for tags or context
keys that the update dropped (see `storeIndexes_counterexample`). -/
theorem storeIndexes_agree_put_delete :
    (∀ S m, StoreInv S → dget? S.memories m.memoryId = none →
       StoreInv (storeMemory S m).2) ∧
    (∀ S id, StoreInv S → StoreInv (deleteMemory S id).2) ∧
    (∀ S id ts hash now m, dget? S.memories id = some m →
       ∀ tag ∈ ts, m.memoryId ∈
         idxIds (updateMemory S id none none (some ts) none hash now).2.memoryIndex
           tag) :=
  ⟨storeInv_storeMemory, storeInv_deleteMemory, updateMemory_adds_new_tags⟩

/-- A stored item with tag `"a"`, used to exercise the update path. -/
def c1Item : MemoryItem :=
  postInit (fun s => s) 0 { memoryId := "m1", content := "x", tags := ["a"] }

/-- The store holding exactly `c1Item`. -/
def c1Store : SemanticMemoryStore := (storeMemory emptyStore c1Item).2

/-- C1 counterexample: after updating `m1`'s tags from `["a"]` to `["b"]`,
the tag index still maps `"a"` to `m1` although the stored item no longer
carries tag `"a"` — the index has diverged from the canonical map. -/
theorem storeIndexes_counterexample :
    "m1" ∈ idxIds
      (updateMemory c1Store "m1" none none (some ["b"]) none (fun s => s) 1).2.memoryIndex
      "a" ∧
    (dget? (updateMemory c1Store "m1" none none (some ["b"]) none
        (fun s => s) 1).2.memories "m1").map MemoryItem.tags = some ["b"] := by
  constructor <;> decide

/-- Witness for `storeIndexes_agree_put_delete` at a concrete store. -/
theorem storeIndexes_agree_put_delete_witness :
    StoreInv (storeMemory emptyStore c1Item).2 ∧
    StoreInv (deleteMemory emptyStore "m1").2 ∧
    "m1" ∈ idxIds
      (updateMemory c1Store "m1" none none (some ["b"]) none (fun s => s) 1).2.memoryIndex
      "b" := by
  have hEmpty : StoreInv emptyStore := by
    refine ⟨?_, ?_, ?_, ?_, ?_, ?_⟩
    · simp [emptyStore, dkeys]
    · intro id mm h
      simp [emptyStore, dget?] at h
    · intro key
      simp [idxIds, emptyStore, dget?]
    · intro key
      simp [idxIds, emptyStore, dget?]
    · intro tag id
      simp [idxIds, emptyStore, dget?]
    · intro key id
      simp [idxIds, emptyStore, dget?]
  refine ⟨?_, ?_, ?_⟩
  · exact storeIndexes_agree_put_delete.1 emptyStore c1Item hEmpty rfl
  · exact storeIndexes_agree_put_delete.2.1 emptyStore "m1" hEmpty
  · exact storeIndexes_agree_put_delete.2.2 c1Store "m1" ["b"] (fun s => s) 1
      c1Item rfl "b" (by decide)

/-- An item constructed with empty content (its fingerprint is the hash of
the empty string, set by `__post_init__`). -/
def c2EmptyItem : MemoryItem :=
  postInit (fun s => String.append "#" s) 0 { memoryId := "m1" }

/-- An item constructed with an explicitly supplied (stale) fingerprint;
`__post_init__` keeps it because it is non-empty. -/
def c2BadHashItem : MemoryItem :=
  postInit (fun s => String.append "#" s) 0
    { memoryId := "m2", content := "y", contentHash := "zz" }

/-- C2 counterexample: `store_memory` succeeds on an item with empty content
(returning its id and storing it), and it does not recompute the fingerprint
at storage time — the stale `"zz"` fingerprint survives although the hash of
the stored content is `"#y"`. -/
theorem storeMemory_counterexample :
    c2EmptyItem.content = "" ∧
    (storeMemory emptyStore c2EmptyItem).1 = "m1" ∧
    (dget? (storeMemory emptyStore c2EmptyItem).2.memories "m1").isSome = true ∧
    (dget? (storeMemory emptyStore c2EmptyItem).2.memories "m1").map
      MemoryItem.content = some "" ∧
    (dget? (storeMemory emptyStore c2BadHashItem).2.memories "m2").map
      MemoryItem.contentHash = some "zz" ∧
    (dget? (storeMemory emptyStore c2BadHashItem).2.memories "m2").map
      (fun mm => String.append "#" mm.content) = some "#y" ∧
    ("zz" : String) ≠ "#y" := by
  refine ⟨?_, ?_, ?_, ?_, ?_, ?_, ?_⟩ <;> decide

/-- C2 (amended): `store_memory` always succeeds — it returns the item's id
and stores the item unchanged, with no emptiness check on the content and no
fingerprint recomputation; the fingerprint is computed from the content by
`__post_init__` only when none was supplied. -/
theorem storeMemory_put_amended (hash : String → String) (now : ℚ)
    (S : SemanticMemoryStore) (m : MemoryItem) :
    (storeMemory S m).1 = m.memoryId ∧
    dget? (storeMemory S m).2.memories m.memoryId = some m ∧
    (postInit hash now m).contentHash =
      (if m.contentHash = "" then hash m.content else m.contentHash) := by
  refine ⟨rfl, ?_, rfl⟩
  show dget? (dset S.memories m.memoryId m) m.memoryId = some m
  exact dget?_dset_self _ _ _

/-! ## Retrieval engine (`intelligent_retrieval.py`) -/

/-- `RetrievalStrategy` enumeration. -/
inductive RetrievalStrategy where
  | semantic | contextual | temporal | hybrid | adaptive
  | frequency | importance | collaborative
deriving DecidableEq, Repr

/-- `RetrievalParameters` with the shipped defaults. -/
structure RetrievalParameters where
  strategy : RetrievalStrategy := RetrievalStrategy.hybrid
  maxResults : ℕ := 10
  similarityThreshold : ℚ := 1/2
  contextWeight : ℚ := 3/10
  temporalWeight : ℚ := 1/5
  frequencyWeight : ℚ := 1/10
  importanceWeight : ℚ := 1/5
  freshnessWeight : ℚ := 1/10
  diversityFactor : ℚ := 1/10
  personalizationStrength : ℚ := 1/5
  includeRelated : Bool := true
  maxAgeHours : Option ℚ := none
  boostRecentAccess : Bool := true
deriving DecidableEq, Repr

/-- `MemoryQuery` (`semantic_storage.py`). -/
structure MemoryQuery where
  queryText : String
  context : Option MemoryContext := none
  memoryTypes : List MemoryType := []
  tags : List String := []
  maxResults : ℕ := 10
  similarityThreshold : ℚ := 1/2
  importanceThreshold : ℚ := 0
  includeExpired : Bool := false
  timeRange : Option (ℚ × ℚ) := none
  accessLevel : Option AccessLevel := none
  strategy : Option RetrievalStrategy := none
deriving DecidableEq, Repr

/-- `UserProfile` (`intelligent_retrieval.py`). `last_updated` defaults to
the construction time in the source; the claims never read it, so the
default here is 0. -/
structure UserProfile where
  userId : String
  preferences : List (String × ℚ) := []
  accessPatterns : List (String × ℕ) := []
  contentPreferences : List (MemoryType × ℚ) := []
  contextPreferences : List (String × ℚ) := []
  temporalPatterns : List (String × ℚ) := []
  similarUsers : List String := []
  lastUpdated : ℚ := 0
deriving DecidableEq, Repr

/-- The eight factor scores of `RankingFactor`, as one record (the source
builds a dict holding exactly these eight keys). -/
structure FactorScores where
  semanticSimilarity : ℚ
  contextMatch : ℚ
  temporalRelevance : ℚ
  accessFrequency : ℚ
  importanceScore : ℚ
  userPreference : ℚ
  relationshipStrength : ℚ
  contentFreshness : ℚ
deriving DecidableEq, Repr

/-- `RetrievalResult`. -/
structure RetrievalResult where
  memory : MemoryItem
  totalScore : ℚ
  factorScores : FactorScores
  retrievalReason : String
  confidence : ℚ
  rank : ℕ := 0
deriving DecidableEq, Repr

/-- One step of `_calculate_context_similarity`: a field pair contributes
weight `w` when both sides are truthy and equal, and counts toward the
denominator when both sides are truthy. -/
def ctxFieldStep (x y : Option String) (w : ℚ) (acc : ℚ × ℕ) : ℚ × ℕ :=
  if pyTruthy x ∧ pyTruthy y then
    (acc.1 + (if x = y then w else 0), acc.2 + 1)
  else acc

/-- `IntelligentRetriever._calculate_context_similarity`. -/
def calcContextSimilarity : Option MemoryContext → Option MemoryContext → ℚ
  | some c1, some c2 =>
      let acc := ctxFieldStep c1.project c2.project 1 (0, 0)
      let acc := ctxFieldStep c1.user c2.user (4/5) acc
      let acc := ctxFieldStep c1.session c2.session (3/5) acc
      let acc := ctxFieldStep c1.application c2.application (2/5) acc
      let acc := ctxFieldStep c1.environment c2.environment (3/10) acc
      acc.1 / ((max 1 acc.2 : ℕ) : ℚ)
  | _, _ => 0

/-- `IntelligentRetriever._calculate_temporal_relevance`: week decay times an
access boost of `max(1.0, 1.5 − hoursSinceAccess/24)`, capped at 1. Note the
1.5 — `_temporal_retrieval` uses 2.0 (see `temporalStrategyScore`). -/
def calcTemporalRelevance (m : MemoryItem) (now : ℚ) : ℚ :=
  let ageHours := now - m.createdAt
  let baseScore := max (1/10) (1 - ageHours / (24 * 7))
  let baseScore := match m.lastAccessed with
    | some la => baseScore * max 1 (3/2 - (now - la) / 24)
    | none => baseScore
  min 1 baseScore

/-- The per-candidate score of the Temporal strategy
(`IntelligentRetriever._temporal_retrieval`): week decay times an access
boost of `max(1.0, 2.0 − hoursSinceAccess/24)`, not capped. -/
def temporalStrategyScore (m : MemoryItem) (now : ℚ) : ℚ :=
  let ageHours := now - m.createdAt
  let temporalScore := max (1/10) (1 - ageHours / (24 * 7))
  match m.lastAccessed with
  | some la => temporalScore * max 1 (2 - (now - la) / 24)
  | none => temporalScore

/-- `IntelligentRetriever._calculate_frequency_score`:
`min(1, (accessCount / max(1, ageDays)) / 5)` with `age_days` the floor of
the age in days (`timedelta.days`). -/
def calcFrequencyScore (m : MemoryItem) (now : ℚ) : ℚ :=
  let ageDays : ℤ := max 1 ⌊(now - m.createdAt) / 24⌋
  min 1 ((m.accessCount : ℚ) / (ageDays : ℚ) / 5)

/-- `IntelligentRetriever._calculate_user_preference`: 0.4× type preference
plus 0.3× *each* present tag preference (a sum over tags, not an average)
plus 0.3× the project-context preference, capped at 1; `0.5` when no profile
object is given. -/
def calcUserPreference (m : MemoryItem) (profile : Option UserProfile) : ℚ :=
  match profile with
  | none => 1/2
  | some p =>
      let score : ℚ := 0
      let score := score + (match dget? p.contentPreferences m.memoryType with
        | some w => w * (2/5)
        | none => 0)
      let score := m.tags.foldl (fun acc tag =>
        acc + (match dget? p.preferences tag with
          | some w => w * (3/10)
          | none => 0)) score
      let score := score + (match m.context with
        | none => 0
        | some c => match c.project with
          | none => 0
          | some proj =>
              if proj = "" then 0
              else match dget? p.contextPreferences ("project:" ++ proj) with
                | some w => w * (3/10)
                | none => 0)
      min 1 score

/-- `IntelligentRetriever._calculate_relationship_strength`. -/
def calcRelationshipStrength (m : MemoryItem) (cands : List MemoryItem) : ℚ :=
  if m.relatedMemories = [] then 0
  else
    let candidateIds := cands.map MemoryItem.memoryId
    let relatedCount :=
      (m.relatedMemories.filter (fun rid => rid ∈ candidateIds)).length
    min 1 ((relatedCount : ℚ) / ((max 1 m.relatedMemories.length : ℕ) : ℚ))

/-- `IntelligentRetriever._calculate_freshness_score`. -/
def calcFreshnessScore (m : MemoryItem) (now : ℚ) : ℚ :=
  max (1/10) (1 - (now - m.updatedAt) / (24 * 3))

/-- `IntelligentRetriever._calculate_total_score`: fixed 0.3/0.1 weights for
semantic and relationship, parameter weights for the rest, capped at 1. -/
def calcTotalScore (fs : FactorScores) (params : RetrievalParameters) : ℚ :=
  min 1 (fs.semanticSimilarity * (3/10)
    + fs.contextMatch * params.contextWeight
    + fs.temporalRelevance * params.temporalWeight
    + fs.accessFrequency * params.frequencyWeight
    + fs.importanceScore * params.importanceWeight
    + fs.userPreference * params.personalizationStrength
    + fs.relationshipStrength * (1/10)
    + fs.contentFreshness * params.freshnessWeight)

/-- The factor dict's `(key, value)` items in insertion order. -/
def factorList (fs : FactorScores) : List (String × ℚ) :=
  [("semantic_similarity", fs.semanticSimilarity),
   ("context_match", fs.contextMatch),
   ("temporal_relevance", fs.temporalRelevance),
   ("access_frequency", fs.accessFrequency),
   ("importance_score", fs.importanceScore),
   ("user_preference", fs.userPreference),
   ("relationship_strength", fs.relationshipStrength),
   ("content_freshness", fs.contentFreshness)]

/-- Python `max(items, key=...)`: first item attaining the maximum. -/
def maxByValFirst (best : String × ℚ) : List (String × ℚ) → String × ℚ
  | [] => best
  | (k, v) :: t => maxByValFirst (if best.2 < v then (k, v) else best) t

/-- `IntelligentRetriever._determine_retrieval_reason`. -/
def determineRetrievalReason (fs : FactorScores) : String :=
  let top := (maxByValFirst ("semantic_similarity", fs.semanticSimilarity)
    (factorList fs).tail).1
  if top = "semantic_similarity" then "semantically similar content"
  else if top = "context_match" then "matching context"
  else if top = "temporal_relevance" then "recent or recently accessed"
  else if top = "access_frequency" then "frequently accessed"
  else if top = "importance_score" then "high importance"
  else if top = "user_preference" then "matches user preferences"
  else if top = "relationship_strength" then "related to other results"
  else if top = "content_freshness" then "recently updated content"
  else "general relevance"

/-- `IntelligentRetriever._calculate_confidence`: strongest factor, plus
0.05 per factor above 0.7 (bonus capped at 0.2), plus 0.1 for the Hybrid and
Adaptive strategies, capped at 1. -/
def calcConfidence (fs : FactorScores) (strategy : RetrievalStrategy) : ℚ :=
  let maxScore := max fs.semanticSimilarity (max fs.contextMatch
    (max fs.temporalRelevance (max fs.accessFrequency (max fs.importanceScore
      (max fs.userPreference (max fs.relationshipStrength fs.contentFreshness))))))
  let strongFactors := (((factorList fs).map Prod.snd).filter
    (fun s => (7/10) < s)).length
  let multiFactorBoost := min (1/5) ((strongFactors : ℚ) * (1/20))
  let strategyBoost : ℚ :=
    if strategy = RetrievalStrategy.hybrid ∨ strategy = RetrievalStrategy.adaptive
    then 1/10 else 0
  min 1 (maxScore + multiFactorBoost + strategyBoost)

/-- Stable insertion into a descending-sorted list: the new element goes in
front of the first element with a key `≤` its own, so among equal keys
earlier elements stay first — the behaviour of Python's stable `sort` with
`reverse=True`. -/
def insertDescBy {α : Type} (f : α → ℚ) (x : α) : List α → List α
  | [] => [x]
  | y :: ys => if f y ≤ f x then x :: y :: ys else y :: insertDescBy f x ys

/-- Stable descending sort by a rational key. -/
def sortDescBy {α : Type} (f : α → ℚ) : List α → List α
  | [] => []
  | x :: xs => insertDescBy f x (sortDescBy f xs)

/-- `for i, result in enumerate(results): result.rank = i + 1`. -/
def assignRanks (i : ℕ) : List RetrievalResult → List RetrievalResult
  | [] => []
  | r :: rs => { r with rank := i + 1 } :: assignRanks (i + 1) rs

/-- `IntelligentRetriever._rank_and_score`: compute the eight factor scores
for every candidate, the weighted total, reason and confidence, sort by
total score descending, and assign 1-based ranks. -/
def rankAndScore (cands : List MemoryItem) (query : MemoryQuery)
    (profile : Option UserProfile) (strategy : RetrievalStrategy)
    (params : RetrievalParameters) (now : ℚ) : List RetrievalResult :=
  let results := cands.map (fun m =>
    let fs : FactorScores :=
      { semanticSimilarity := m.similarityScore,
        contextMatch := calcContextSimilarity query.context m.context,
        temporalRelevance := calcTemporalRelevance m now,
        accessFrequency := calcFrequencyScore m now,
        importanceScore := m.importance,
        userPreference := calcUserPreference m profile,
        relationshipStrength := calcRelationshipStrength m cands,
        contentFreshness := calcFreshnessScore m now }
    { memory := m,
      totalScore := calcTotalScore fs params,
      factorScores := fs,
      retrievalReason := determineRetrievalReason fs,
      confidence := calcConfidence fs strategy })
  assignRanks 0 (sortDescBy (fun r => r.totalScore) results)

/-- An entry of `retrieval_history` (the heterogeneous
`context_features` dict is omitted; no claim reads it). -/
structure RetrievalEvent where
  timestamp : ℚ
  query : String
  strategy : RetrievalStrategy
  resultCount : ℕ
  avgScore : ℚ
deriving DecidableEq, Repr

/-- The learning state of `IntelligentRetriever` (profiles, history and
per-strategy performance series — the parts the claims are about). -/
structure IntelligentRetriever where
  userProfiles : List (String × UserProfile) := []
  retrievalHistory : List RetrievalEvent := []
  strategyPerformance : List (RetrievalStrategy × List ℚ) := []
deriving DecidableEq, Repr

/-- `IntelligentRetriever._get_user_profile`: a missing or falsy user yields
a *fresh* `UserProfile("anonymous")` that is never stored; a named user's
profile is created lazily and kept in `self.user_profiles`. -/
def getUserProfile (R : IntelligentRetriever) (context : Option MemoryContext) :
    UserProfile × IntelligentRetriever :=
  match context with
  | none => ({ userId := "anonymous" }, R)
  | some c =>
      match c.user with
      | none => ({ userId := "anonymous" }, R)
      | some u =>
          if u = "" then ({ userId := "anonymous" }, R)
          else
            match dget? R.userProfiles u with
            | some p => (p, R)
            | none =>
                ({ userId := u },
                 { R with userProfiles := dset R.userProfiles u { userId := u } })

/-- `IntelligentRetriever._update_learning`: append a history event; for a
named user, bump the type preference of every result (+0.05, init 0.5,
cap 1) and every tag preference (+0.02, init 0.5, cap 1) and stamp
`last_updated`; append the mean confidence to the strategy's performance
series, trimming to the last 50 entries once it exceeds 100. -/
def updateLearning (R : IntelligentRetriever) (query : MemoryQuery)
    (results : List RetrievalResult) (strategy : RetrievalStrategy) (now : ℚ) :
    IntelligentRetriever :=
  let event : RetrievalEvent :=
    { timestamp := now, query := query.queryText, strategy := strategy,
      resultCount := results.length,
      avgScore := if results.isEmpty then 0
        else (results.map (fun r => r.totalScore)).sum / (results.length : ℚ) }
  let R := { R with retrievalHistory := R.retrievalHistory ++ [event] }
  let R :=
    match query.context with
    | none => R
    | some c =>
        match c.user with
        | none => R
        | some u =>
            if u = "" then R
            else
              let pR := getUserProfile R (some c)
              let p := pR.1
              let R := pR.2
              let p := results.foldl (fun p r =>
                let mt := r.memory.memoryType
                let w := min 1 ((dget? p.contentPreferences mt).getD (1/2) + 1/20)
                { p with contentPreferences := dset p.contentPreferences mt w }) p
              let p := results.foldl (fun p r =>
                r.memory.tags.foldl (fun p tag =>
                  let w := min 1 ((dget? p.preferences tag).getD (1/2) + 1/50)
                  { p with preferences := dset p.preferences tag w }) p) p
              let p := { p with lastUpdated := now }
              { R with userProfiles := dset R.userProfiles u p }
  if results.isEmpty then R
  else
    let avgConfidence := (results.map (fun r => r.confidence)).sum /
      (results.length : ℚ)
    let perf := (dget? R.strategyPerformance strategy).getD [] ++ [avgConfidence]
    let perf := if perf.length > 100 then perf.drop (perf.length - 50) else perf
    { R with strategyPerformance := dset R.strategyPerformance strategy perf }

/-! ### Claim C4: the temporal-relevance ranking factor -/

/-- The temporal-relevance formula exactly as the C4 claim states it: the
*Temporal strategy's* boost `max(1.0, 2.0 − hoursSinceLastAccess/24)`,
capped at 1.0 (for an item accessed at time `la`). -/
def temporalRelevanceClaim (m : MemoryItem) (now la : ℚ) : ℚ :=
  min 1 (max (1/10) (1 - (now - m.createdAt) / (24 * 7)) *
    max 1 (2 - (now - la) / 24))

/-- An item created 84 hours ago and accessed just now. -/
def c4Item : MemoryItem := { memoryId := "m", createdAt := 0, lastAccessed := some 84 }

/-- C4 counterexample: the ranking factor uses boost `1.5 − h/24`, not the
Temporal strategy's `2.0 − h/24`, so at age 84 h and access 0 h ago the code
yields `0.5 × 1.5 = 0.75` while the claimed formula yields
`min(1, 0.5 × 2) = 1`. -/
theorem temporalRelevance_counterexample :
    calcTemporalRelevance c4Item 84 = 3/4 ∧
    temporalRelevanceClaim c4Item 84 84 = 1 ∧
    (3/4 : ℚ) ≠ 1 := by
  refine ⟨?_, ?_, by norm_num⟩ <;>
    norm_num [calcTemporalRelevance, temporalRelevanceClaim, c4Item,
      max_def, min_def]

/-- C4 (amended): for an accessed item the ranking factor is
`min(1, max(0.1, 1 − age/(24·7)) × max(1, 1.5 − h/24))` — the boost constant
is 1.5, whereas the Temporal candidate-generation strategy uses 2.0 (and no
cap), so the two formulas differ. -/
theorem temporalRelevance_amended (m : MemoryItem) (now la : ℚ)
    (h : m.lastAccessed = some la) :
    calcTemporalRelevance m now =
      min 1 (max (1/10) (1 - (now - m.createdAt) / (24 * 7)) *
        max 1 (3/2 - (now - la) / 24)) ∧
    temporalStrategyScore m now =
      max (1/10) (1 - (now - m.createdAt) / (24 * 7)) *
        max 1 (2 - (now - la) / 24) := by
  constructor <;> simp [calcTemporalRelevance, temporalStrategyScore, h]

/-- Witness for `temporalRelevance_amended` at the concrete item. -/
theorem temporalRelevance_amended_witness :
    calcTemporalRelevance c4Item 84 =
      min 1 (max (1/10) (1 - (84 - c4Item.createdAt) / (24 * 7)) *
        max 1 (3/2 - (84 - 84) / 24)) ∧
    temporalStrategyScore c4Item 84 =
      max (1/10) (1 - (84 - c4Item.createdAt) / (24 * 7)) *
        max 1 (2 - (84 - 84) / 24) :=
  temporalRelevance_amended c4Item 84 84 rfl

/-! ### Claim C6: the user-preference ranking factor -/

/-- The user-preference factor exactly as the C6 claim words it: a weighted
blend `0.4×typePref + 0.3×(average of the tag preferences) + 0.3×projPref`,
absent preferences reading as 0, capped at 1. -/
def userPreferenceClaim (m : MemoryItem) (p : UserProfile) : ℚ :=
  let typePref := (dget? p.contentPreferences m.memoryType).getD 0
  let tagAvg : ℚ := if m.tags.isEmpty then 0
    else (m.tags.map (fun tag => (dget? p.preferences tag).getD 0)).sum /
      (m.tags.length : ℚ)
  let projPref : ℚ := match m.context with
    | none => 0
    | some c => match c.project with
      | none => 0
      | some proj => (dget? p.contextPreferences ("project:" ++ proj)).getD 0
  min 1 (typePref * (2/5) + tagAvg * (3/10) + projPref * (3/10))

def c6Profile : UserProfile := { userId := "u", preferences := [("t1", 1), ("t2", 1)] }

def c6Item : MemoryItem := { memoryId := "m", tags := ["t1", "t2"] }

/-- C6 counterexample: for an item with two tags both of preference 1, the
code *sums* the 0.3-weighted tag preferences (`0.6`), while the claim's
average formula yields `0.3`. -/
theorem userPreference_counterexample :
    calcUserPreference c6Item (some c6Profile) = 3/5 ∧
    userPreferenceClaim c6Item c6Profile = 3/10 ∧
    (3/5 : ℚ) ≠ 3/10 := by
  refine ⟨?_, ?_, by norm_num⟩ <;>
    norm_num +decide [calcUserPreference, userPreferenceClaim, c6Item, c6Profile,
      dget?, max_def, min_def]

theorem foldl_add_map_sum {α : Type} (g : α → ℚ) (l : List α) (s0 : ℚ) :
    l.foldl (fun acc x => acc + g x) s0 = s0 + (l.map g).sum := by
  induction l generalizing s0 with
  | nil => simp
  | cons x xs ih =>
      rw [List.foldl_cons, ih, List.map_cons, List.sum_cons]
      ring

/-- C6 (amended): the user-preference factor is
`min(1, 0.4×typePref + Σ_tag 0.3×tagPref + 0.3×projPref)` — each *present*
tag preference contributes 0.3 of its weight (a sum over the tag list, not
an average) — and equals 0.5 when no profile object is supplied. -/
theorem userPreference_amended (m : MemoryItem) (p : UserProfile) :
    calcUserPreference m (some p) =
      min 1 ((match dget? p.contentPreferences m.memoryType with
          | some w => w * (2/5)
          | none => 0)
        + (m.tags.map (fun tag => match dget? p.preferences tag with
            | some w => w * (3/10)
            | none => 0)).sum
        + (match m.context with
          | none => 0
          | some c => match c.project with
            | none => 0
            | some proj =>
                if proj = "" then 0
                else match dget? p.contextPreferences ("project:" ++ proj) with
                  | some w => w * (3/10)
                  | none => 0)) ∧
    calcUserPreference m none = 1/2 := by
  constructor
  · show min 1 _ = min 1 _
    rw [foldl_add_map_sum]
    congr 1
    ring
  · rfl

/-! ### Claim C9: user-profile lifecycle -/

/-- A dummy retrieval result used to exercise `_update_learning` with a
non-empty result list. -/
def c9Result : RetrievalResult :=
  { memory := { memoryId := "m" }, totalScore := 0,
    factorScores := ⟨0, 0, 0, 0, 0, 0, 0, 0⟩,
    retrievalReason := "", confidence := 0 }

/-- C9 counterexample: a query without a user gets a *fresh* anonymous
profile that is never stored in the profile map, and `_update_learning` on a
user-less query (even with results) stores nothing — the anonymous profile
is neither retained nor accumulated into. -/
theorem anonymousProfile_counterexample :
    (getUserProfile ({} : IntelligentRetriever) (some {})).1 =
      { userId := "anonymous" } ∧
    (getUserProfile ({} : IntelligentRetriever) (some {})).2.userProfiles = [] ∧
    dget? (getUserProfile ({} : IntelligentRetriever) (some {})).2.userProfiles
      "anonymous" = none ∧
    (updateLearning ({} : IntelligentRetriever) { queryText := "q" }
        [c9Result] RetrievalStrategy.hybrid 0).userProfiles = [] := by
  refine ⟨rfl, rfl, rfl, rfl⟩

/-- C9 (amended): a profile keyed by a (truthy) user id is created lazily on
that user's first query, stored in the engine's profile map and returned
from the map on later queries; but a query without a user gets a fresh
`"anonymous"` profile that is *not* stored, and `_update_learning` on a
user-less query leaves the profile map untouched — nothing accumulates into
a retained anonymous profile. -/
theorem userProfile_lifecycle :
    (∀ (R : IntelligentRetriever) (c : MemoryContext) (u : String),
       c.user = some u → u ≠ "" → dget? R.userProfiles u = none →
       (getUserProfile R (some c)).1 = { userId := u } ∧
       dget? (getUserProfile R (some c)).2.userProfiles u =
         some { userId := u }) ∧
    (∀ (R : IntelligentRetriever) (c : MemoryContext) (u : String)
       (p : UserProfile),
       c.user = some u → u ≠ "" → dget? R.userProfiles u = some p →
       (getUserProfile R (some c)).1 = p ∧ (getUserProfile R (some c)).2 = R) ∧
    (∀ (R : IntelligentRetriever) (c : MemoryContext),
       (c.user = none ∨ c.user = some "") →
       (getUserProfile R (some c)).1 = { userId := "anonymous" } ∧
       (getUserProfile R (some c)).2 = R) ∧
    (∀ R : IntelligentRetriever,
       (getUserProfile R none).1 = { userId := "anonymous" } ∧
       (getUserProfile R none).2 = R) ∧
    (∀ (R : IntelligentRetriever) (query : MemoryQuery)
       (results : List RetrievalResult) (strategy : RetrievalStrategy) (now : ℚ),
       (query.context = none ∨
         ∃ c, query.context = some c ∧ (c.user = none ∨ c.user = some "")) →
       (updateLearning R query results strategy now).userProfiles =
         R.userProfiles) := by
  refine ⟨?_, ?_, ?_, ?_, ?_⟩
  · intro R c u hu hne hfresh
    constructor
    · simp [getUserProfile, hu, hne, hfresh]
    · simp only [getUserProfile, hu, if_neg hne, hfresh]
      exact dget?_dset_self _ _ _
  · intro R c u p hu hne hp
    constructor <;> simp [getUserProfile, hu, hne, hp]
  · intro R c hcase
    rcases hcase with h | h <;>
      exact ⟨by simp [getUserProfile, h], by simp [getUserProfile, h]⟩
  · intro R
    exact ⟨rfl, rfl⟩
  · intro R query results strategy now hcase
    rcases hcase with h | ⟨c, hc, huser⟩
    · by_cases hres : results.isEmpty <;>
        simp [updateLearning, h, hres]
    · rcases huser with h1 | h1 <;>
        · by_cases hres : results.isEmpty <;>
            simp [updateLearning, hc, h1, hres]

/-- Witness for `userProfile_lifecycle` on concrete states. -/
theorem userProfile_lifecycle_witness :
    ((getUserProfile ({} : IntelligentRetriever)
        (some { user := some "alice" })).1 = { userId := "alice" } ∧
      dget? (getUserProfile ({} : IntelligentRetriever)
        (some { user := some "alice" })).2.userProfiles "alice" =
          some { userId := "alice" }) ∧
    ((getUserProfile
        (getUserProfile ({} : IntelligentRetriever)
          (some { user := some "alice" })).2
        (some { user := some "alice" })).1 = { userId := "alice" } ∧
      (getUserProfile
        (getUserProfile ({} : IntelligentRetriever)
          (some { user := some "alice" })).2
        (some { user := some "alice" })).2 =
        (getUserProfile ({} : IntelligentRetriever)
          (some { user := some "alice" })).2) ∧
    ((getUserProfile ({} : IntelligentRetriever) (some {})).1 =
        { userId := "anonymous" } ∧
      (getUserProfile ({} : IntelligentRetriever) (some {})).2 = {}) ∧
    ((getUserProfile ({} : IntelligentRetriever) none).1 =
        { userId := "anonymous" } ∧
      (getUserProfile ({} : IntelligentRetriever) none).2 = {}) ∧
    (updateLearning ({} : IntelligentRetriever) { queryText := "q" } []
        RetrievalStrategy.hybrid 0).userProfiles =
      ({} : IntelligentRetriever).userProfiles := by
  refine ⟨?_, ?_, ?_, ?_, ?_⟩
  · exact userProfile_lifecycle.1 {} { user := some "alice" } "alice" rfl
      (by decide) rfl
  · exact userProfile_lifecycle.2.1 _ { user := some "alice" } "alice"
      { userId := "alice" } rfl (by decide) rfl
  · exact userProfile_lifecycle.2.2.1 {} {} (Or.inl rfl)
  · exact userProfile_lifecycle.2.2.2.1 {}
  · exact userProfile_lifecycle.2.2.2.2 {} { queryText := "q" } []
      RetrievalStrategy.hybrid 0 (Or.inl rfl)

/-! ## Pattern predictor and preload pipeline (`predictive_loading.py`) -/

/-- A `datetime` value: the absolute timeline position in hours plus the
calendar projections the source reads (`.hour`, `.weekday()`, `.month`).
Differences and comparisons of datetimes use the absolute position. -/
structure DateTime where
  abs : ℚ
  hour : ℕ
  weekday : ℕ
  month : ℕ
deriving DecidableEq, Repr

/-- `PredictionType` enumeration. -/
inductive PredictionType where
  | nextMemory | relatedMemories | contextMemories | temporalMemories
  | collaborativeMemories | workflowMemories | seasonalMemories
deriving DecidableEq, Repr

/-- `PredictionConfidence` enumeration. -/
inductive PredictionConfidence where
  | veryLow | low | medium | high | veryHigh
deriving DecidableEq, Repr

/-- `MemoryPrediction`. The `prediction_id`, `reasoning`, `context` and
`evidence` fields are bookkeeping strings/dicts never read by the logic the
claims are about, and are omitted. `predicted_at`/`valid_until` are kept as
absolute hours. -/
structure MemoryPrediction where
  predictedMemoryIds : List String
  predictionType : PredictionType
  confidence : PredictionConfidence
  confidenceScore : ℚ
  predictedAt : ℚ
  validUntil : ℚ
deriving DecidableEq, Repr

/-- The learning state of `MemoryPredictor`. (`self.patterns` is initialised
in the source but never written or read afterwards and is omitted.) The
learning parameters `max_pattern_age_days = 30` and `sequence_window = 5`
appear as literals below. -/
structure MemoryPredictor where
  temporalPatterns : List (String × List (DateTime × String)) := []
  contextAssociations : List (String × List (String × ℚ)) := []
  sequencePatterns : List (String × List String) := []
  userWorkflows : List (String × List (List String)) := []
deriving DecidableEq, Repr

/-- `MemoryPredictor._get_context_key`: the truthy context parts joined with
`"|"`, or `"default"`. -/
def getContextKey (context : MemoryContext) : String :=
  let keyParts :=
    (match context.project with
      | some p => if p = "" then [] else ["project:" ++ p]
      | none => []) ++
    (match context.user with
      | some u => if u = "" then [] else ["user:" ++ u]
      | none => []) ++
    (match context.application with
      | some a => if a = "" then [] else ["app:" ++ a]
      | none => []) ++
    (match context.environment with
      | some e => if e = "" then [] else ["env:" ++ e]
      | none => [])
  if keyParts = [] then "default" else String.intercalate "|" keyParts

/-- `MemoryPredictor._update_workflow_patterns`: the user's entry is created
unconditionally; with a truthy session, if some workflow already ends in the
accessed id nothing changes (the id is already in it), otherwise a fresh
one-element workflow is appended. -/
def updateWorkflowPatterns (wfs : List (String × List (List String)))
    (userId memoryId : String) (context : MemoryContext) :
    List (String × List (List String)) :=
  let wfs := if (dget? wfs userId).isSome then wfs else dset wfs userId []
  if pyTruthy context.session then
    let lst := (dget? wfs userId).getD []
    let lst := if lst.any (fun w => w.getLast? = some memoryId) then lst
      else lst ++ [[memoryId]]
    dset wfs userId lst
  else wfs

/-- `MemoryPredictor.learn_from_access`; `now` is `datetime.now()` at the
moment of learning (used for the 30-day pruning cutoff). -/
def learnFromAccess (P : MemoryPredictor) (memoryId : String)
    (context : MemoryContext) (timestamp : DateTime) (userId : String)
    (now : DateTime) : MemoryPredictor :=
  let cutoffAbs := now.abs - 30 * 24
  { temporalPatterns :=
      dupdate P.temporalPatterns userId []
        (fun l => (l ++ [(timestamp, memoryId)]).filter
          (fun p => p.1.abs > cutoffAbs)),
    contextAssociations :=
      dupdate P.contextAssociations (getContextKey context) []
        (fun assoc => dupdate assoc memoryId 0 (fun v => v + 1)),
    sequencePatterns :=
      dupdate P.sequencePatterns userId []
        (fun l =>
          let l := l ++ [memoryId]
          if l.length > 5 then l.drop (l.length - 5) else l),
    userWorkflows := updateWorkflowPatterns P.userWorkflows userId memoryId context }

/-- `defaultdict(int)` frequency count in first-occurrence order. -/
def countFreq (l : List String) : List (String × ℕ) :=
  l.foldl (fun counts mid => dupdate counts mid 0 (fun n => n + 1)) []

/-- `MemoryPredictor._score_to_confidence`. -/
def scoreToConfidence (score : ℚ) : PredictionConfidence :=
  if 4/5 ≤ score then PredictionConfidence.veryHigh
  else if 3/5 ≤ score then PredictionConfidence.high
  else if 2/5 ≤ score then PredictionConfidence.medium
  else if 1/5 ≤ score then PredictionConfidence.low
  else PredictionConfidence.veryLow

/-- `MemoryPredictor._calculate_confidence` (the tier heuristic). -/
def calcConfidenceTier (memoryIds : List String) (context : MemoryContext) :
    PredictionConfidence :=
  if 3 ≤ memoryIds.length ∧ pyTruthy context.project then
    PredictionConfidence.high
  else if 2 ≤ memoryIds.length then PredictionConfidence.medium
  else PredictionConfidence.low

/-- `MemoryPredictor._calculate_confidence_score`. -/
def calcConfidenceScore (memoryIds : List String)
    (patterns : List (DateTime × String)) : ℚ :=
  let baseScore := min (9/10) ((memoryIds.length : ℚ) / 5)
  let memoryCounts := patterns.foldl (fun counts p =>
    if p.2 ∈ memoryIds then dupdate counts p.2 0 (fun n => n + 1) else counts)
    ([] : List (String × ℕ))
  let avgFrequency : ℚ := if memoryCounts.isEmpty then 1
    else ((memoryCounts.map Prod.snd).sum : ℚ) / (memoryCounts.length : ℚ)
  let frequencyBonus := min (3/10) (avgFrequency / 10)
  min 1 (baseScore + frequencyBonus)

/-- `MemoryPredictor._calculate_sequence_confidence`: only the lengths of
the matched prefix and of the pattern enter the formula (the `next_items`
argument is unused by it). -/
def calcSequenceConfidence (recentAccesses : List String) (patternLength : ℕ) : ℚ :=
  let baseScore := (recentAccesses.length : ℚ) / ((max 1 patternLength : ℕ) : ℚ)
  let exactMatchBonus : ℚ := if recentAccesses.isEmpty then 0 else 1/5
  min 1 (baseScore + exactMatchBonus)

/-- Python `==` between a `str` and a `list` is always `False`. In
`_predict_from_sequences`, `pattern` ranges over the elements of
`sequence_patterns[user_id]` — single memory-id *strings* — so
`pattern[i:i+len(recent_accesses)]` is a string slice, and comparing it with
the list `recent_accesses` never succeeds: the guard is constantly false and
the sequence generator can never emit a prediction. -/
def pyStrEqListStr (_slice : String) (_l : List String) : Bool := false

/-- `MemoryPredictor._predict_from_sequences`. The body of the (unreachable)
match branch is kept; the ill-typed `predicted_memory_ids` (a string slice
where a list is expected) is represented as a one-element list. -/
def predictFromSequences (P : MemoryPredictor) (userId : String)
    (recentAccesses : List String) (now : DateTime) : List MemoryPrediction :=
  if recentAccesses.isEmpty then []
  else
    match dget? P.sequencePatterns userId with
    | none => []
    | some pats =>
        pats.flatMap (fun pattern =>
          if 2 ≤ recentAccesses.length then
            (List.range (pattern.length - recentAccesses.length + 1)).filterMap
              (fun i =>
                if pyStrEqListStr ((pattern.drop i).take recentAccesses.length)
                    recentAccesses then
                  let nextItems :=
                    (pattern.drop (i + recentAccesses.length)).take 3
                  if nextItems = "" then none
                  else
                    let cs := calcSequenceConfidence recentAccesses pattern.length
                    some
                      { predictedMemoryIds := [nextItems],
                        predictionType := PredictionType.nextMemory,
                        confidence := scoreToConfidence cs,
                        confidenceScore := cs,
                        predictedAt := now.abs, validUntil := now.abs + 2 }
                else none)
          else [])

/-- `MemoryPredictor._predict_from_context`. -/
def predictFromContext (P : MemoryPredictor) (context : MemoryContext)
    (now : DateTime) : List MemoryPrediction :=
  let contextKey := getContextKey context
  match dget? P.contextAssociations contextKey with
  | none => []
  | some assoc =>
      let associatedMemories := (sortDescBy (fun kv => kv.2) assoc).take 5
      if associatedMemories.isEmpty then []
      else
        let memoryIds := associatedMemories.map Prod.fst
        let avgStrength := (associatedMemories.map Prod.snd).sum /
          (associatedMemories.length : ℚ)
        [{ predictedMemoryIds := memoryIds,
           predictionType := PredictionType.contextMemories,
           confidence := scoreToConfidence (avgStrength / 10),
           confidenceScore := min 1 (avgStrength / 10),
           predictedAt := now.abs, validUntil := now.abs + 4 }]

/-- `MemoryPredictor._predict_from_temporal_patterns`: items accessed within
one hour of the current hour on the same weekday, ranked by frequency, top
3, fixed Medium/0.65 confidence. -/
def predictFromTemporal (P : MemoryPredictor) (userId : String)
    (now : DateTime) : List MemoryPrediction :=
  match dget? P.temporalPatterns userId with
  | none => []
  | some pats =>
      let temporalMemories := pats.filterMap (fun p =>
        if ((p.1.hour : ℤ) - (now.hour : ℤ)).natAbs ≤ 1 ∧
            p.1.weekday = now.weekday then some p.2 else none)
      if temporalMemories.isEmpty then []
      else
        let top := (sortDescBy (fun kv => ((kv.2 : ℕ) : ℚ))
          (countFreq temporalMemories)).take 3
        [{ predictedMemoryIds := top.map Prod.fst,
           predictionType := PredictionType.temporalMemories,
           confidence := PredictionConfidence.medium,
           confidenceScore := 13/20,
           predictedAt := now.abs, validUntil := now.abs + 3 }]

/-- `MemoryPredictor._predict_from_workflows`: workflows whose slice matches
the recent accesses predict the next two steps, fixed High/0.8 confidence. -/
def predictFromWorkflows (P : MemoryPredictor) (userId : String)
    (recentAccesses : List String) (now : DateTime) : List MemoryPrediction :=
  match dget? P.userWorkflows userId with
  | none => []
  | some wfs =>
      wfs.flatMap (fun workflow =>
        if 2 ≤ recentAccesses.length then
          (List.range (workflow.length - recentAccesses.length + 1)).filterMap
            (fun i =>
              if (workflow.drop i).take recentAccesses.length = recentAccesses
              then
                let nextSteps :=
                  (workflow.drop (i + recentAccesses.length)).take 2
                if nextSteps.isEmpty then none
                else some
                  { predictedMemoryIds := nextSteps,
                    predictionType := PredictionType.workflowMemories,
                    confidence := PredictionConfidence.high,
                    confidenceScore := 4/5,
                    predictedAt := now.abs, validUntil := now.abs + 1 }
              else none)
        else [])

/-- `MemoryPredictor._find_similar_users`: users whose accessed-item sets
have Jaccard similarity above 0.3, first three in table order. The Python
sets are modelled as duplicate-free lists; intersection and union
cardinalities become lengths of the corresponding filtered lists. -/
def findSimilarUsers (P : MemoryPredictor) (userId : String) : List String :=
  match dget? P.temporalPatterns userId with
  | none => []
  | some pats =>
      let userMemories := (pats.map Prod.snd).dedup
      (P.temporalPatterns.filterMap (fun ou =>
        if ou.1 = userId then none
        else
          let otherMemories := (ou.2.map Prod.snd).dedup
          let inter := (userMemories.filter (fun x => x ∈ otherMemories)).length
          let uni := (userMemories ++ otherMemories.filter
            (fun x => x ∉ userMemories)).length
          if 0 < uni ∧ (3/10 : ℚ) < (inter : ℚ) / (uni : ℚ) then some ou.1
          else none)).take 3

/-- `MemoryPredictor._predict_from_collaboration`: aggregate the last-24h
accesses of similar users, top 3 by frequency, fixed Medium/0.55. -/
def predictFromCollaboration (P : MemoryPredictor) (userId : String)
    (now : DateTime) : List MemoryPrediction :=
  let similarUsers := findSimilarUsers P userId
  if similarUsers.isEmpty then []
  else
    let collaborativeMemories := similarUsers.flatMap (fun su =>
      match dget? P.temporalPatterns su with
      | none => []
      | some pats => pats.filterMap (fun p =>
          if p.1.abs > now.abs - 24 then some p.2 else none))
    if collaborativeMemories.isEmpty then []
    else
      let top := (sortDescBy (fun kv => ((kv.2 : ℕ) : ℚ))
        (countFreq collaborativeMemories)).take 3
      [{ predictedMemoryIds := top.map Prod.fst,
         predictionType := PredictionType.collaborativeMemories,
         confidence := PredictionConfidence.medium,
         confidenceScore := 11/20,
         predictedAt := now.abs, validUntil := now.abs + 6 }]

/-- The deduplication phase of `_rank_predictions`: keep a prediction only
when its predicted-id set is disjoint from everything already claimed. -/
def dedupDisjoint : List MemoryPrediction → Finset String → List MemoryPrediction
  | [], _ => []
  | p :: rest, seen =>
      let memorySet := p.predictedMemoryIds.toFinset
      if memorySet ∩ seen = ∅ then
        p :: dedupDisjoint rest (seen ∪ memorySet)
      else dedupDisjoint rest seen

/-- `MemoryPredictor._rank_predictions`: stable sort by confidence score
descending, then drop any prediction whose id set intersects one already
kept. -/
def rankPredictions (predictions : List MemoryPrediction) :
    List MemoryPrediction :=
  dedupDisjoint (sortDescBy (fun p => p.confidenceScore) predictions) ∅

/-- `MemoryPredictor.predict_next_memories`: run the five generators, rank,
and return the top 10. -/
def predictNextMemories (P : MemoryPredictor) (context : MemoryContext)
    (userId : String) (recentAccesses : List String) (now : DateTime) :
    List MemoryPrediction :=
  let predictions :=
    predictFromSequences P userId recentAccesses now
    ++ predictFromContext P context now
    ++ predictFromTemporal P userId now
    ++ predictFromWorkflows P userId recentAccesses now
    ++ predictFromCollaboration P userId now
  (rankPredictions predictions).take 10

/-- `MemoryPredictor._find_related_memories`. -/
def findRelatedMemories (memoryId : String)
    (patterns : List (DateTime × String)) : List String :=
  let targetAccesses := patterns.filterMap (fun p =>
    if p.2 = memoryId then some p.1 else none)
  let related := targetAccesses.flatMap (fun targetTime =>
    patterns.filterMap (fun p =>
      if p.2 ≠ memoryId ∧ |p.1.abs - targetTime.abs| ≤ 1 then some p.2
      else none))
  if related.isEmpty then []
  else ((sortDescBy (fun kv => ((kv.2 : ℕ) : ℚ)) (countFreq related)).take 3).map
    Prod.fst

/-- `MemoryPredictor.predict_related_memories`: one prediction per user
whose patterns relate other memories to the given one. -/
def predictRelatedMemories (P : MemoryPredictor) (memoryId : String)
    (context : MemoryContext) (now : DateTime) : List MemoryPrediction :=
  P.temporalPatterns.filterMap (fun up =>
    let relatedIds := findRelatedMemories memoryId up.2
    if relatedIds.isEmpty then none
    else some
      { predictedMemoryIds := relatedIds,
        predictionType := PredictionType.relatedMemories,
        confidence := calcConfidenceTier relatedIds context,
        confidenceScore := calcConfidenceScore relatedIds up.2,
        predictedAt := now.abs, validUntil := now.abs + 24 })

/-- `MemoryPredictor.predict_seasonal_memories`: per access tuple, an
hour-and-weekday match and a month match each contribute the id, top 5 by
frequency, fixed Medium/0.6. -/
def predictSeasonalMemories (P : MemoryPredictor) (userId : String)
    (now : DateTime) : List MemoryPrediction :=
  match dget? P.temporalPatterns userId with
  | none => []
  | some pats =>
      let seasonalMemories := pats.flatMap (fun p =>
        (if ((p.1.hour : ℤ) - (now.hour : ℤ)).natAbs ≤ 1 ∧
            p.1.weekday = now.weekday then [p.2] else []) ++
        (if p.1.month = now.month then [p.2] else []))
      if seasonalMemories.isEmpty then []
      else
        let top := (sortDescBy (fun kv => ((kv.2 : ℕ) : ℚ))
          (countFreq seasonalMemories)).take 5
        [{ predictedMemoryIds := top.map Prod.fst,
           predictionType := PredictionType.seasonalMemories,
           confidence := PredictionConfidence.medium,
           confidenceScore := 3/5,
           predictedAt := now.abs, validUntil := now.abs + 6 }]

/-- The state of `PredictiveLoader` relevant to prediction requests: the
predictor and the per-user `deque(maxlen=10)` of recent accesses, plus
`max_predictions` (default 20). -/
structure PredictiveLoader where
  predictor : MemoryPredictor := {}
  recentAccesses : List (String × List String) := []
  maxPredictions : ℕ := 20
deriving DecidableEq, Repr

/-- `PredictiveLoader.record_access_event`: for a truthy user, push the id
onto the user's recent-access deque and learn from the access (timestamp =
`datetime.now()` = `now`). -/
def recordAccessEvent (L : PredictiveLoader) (memoryId : String)
    (context : MemoryContext) (now : DateTime) : PredictiveLoader :=
  match context.user with
  | none => L
  | some u =>
      if u = "" then L
      else
        { L with
          recentAccesses :=
            dupdate L.recentAccesses u []
              (fun l =>
                let l := l ++ [memoryId]
                if l.length > 10 then l.drop (l.length - 10) else l),
          predictor := learnFromAccess L.predictor memoryId context now u now }

/-- `PredictiveLoader.predict_needs`, reduced to the prediction list it
returns (the surrounding response dict, metric bumps and the storing of the
predictions on `self` do not affect the list): predictions from
`predict_next_memories`, plus related predictions for the last three recent
accesses, plus seasonal predictions, ranked and cut to `max_predictions`. -/
def predictNeeds (L : PredictiveLoader) (context : MemoryContext)
    (now : DateTime) : List MemoryPrediction :=
  match context.user with
  | none => []
  | some u =>
      if u = "" then []
      else
        let recentAccesses := (dget? L.recentAccesses u).getD []
        let predictions := predictNextMemories L.predictor context u
          recentAccesses now
        let predictions := predictions ++
          (if recentAccesses.isEmpty then []
           else (recentAccesses.drop (recentAccesses.length - 3)).flatMap
             (fun recentId => predictRelatedMemories L.predictor recentId
               context now))
        let predictions := predictions ++
          predictSeasonalMemories L.predictor u now
        (rankPredictions predictions).take L.maxPredictions

/-! ### Ranking properties (claim C3) -/

theorem insertDescBy_perm {α : Type} (f : α → ℚ) (x : α) (l : List α) :
    (insertDescBy f x l).Perm (x :: l) := by
  induction l with
  | nil => simp [insertDescBy]
  | cons y ys ih =>
      by_cases hc : f y ≤ f x
      · rw [insertDescBy, if_pos hc]
      · rw [insertDescBy, if_neg hc]
        exact List.Perm.trans (List.Perm.cons y ih) (List.Perm.swap x y ys)

theorem sortDescBy_perm {α : Type} (f : α → ℚ) (l : List α) :
    (sortDescBy f l).Perm l := by
  induction l with
  | nil => simp [sortDescBy]
  | cons x xs ih =>
      rw [sortDescBy]
      exact ((insertDescBy_perm f x (sortDescBy f xs)).trans
        (List.Perm.cons x ih))

theorem pairwise_insertDescBy {α : Type} (f : α → ℚ) (x : α) (l : List α)
    (h : l.Pairwise (fun a b => f b ≤ f a)) :
    (insertDescBy f x l).Pairwise (fun a b => f b ≤ f a) := by
  induction l with
  | nil => simp [insertDescBy]
  | cons y ys ih =>
      rw [List.pairwise_cons] at h
      by_cases hc : f y ≤ f x
      · rw [insertDescBy, if_pos hc]
        refine List.Pairwise.cons ?_ (List.Pairwise.cons h.1 h.2)
        intro z hz
        rcases List.mem_cons.mp hz with rfl | hzys
        · exact hc
        · exact le_trans (h.1 z hzys) hc
      · rw [insertDescBy, if_neg hc]
        refine List.Pairwise.cons ?_ (ih h.2)
        intro z hz
        have hz' := (insertDescBy_perm f x ys).mem_iff.mp hz
        rcases List.mem_cons.mp hz' with rfl | hzys
        · exact le_of_lt (not_le.mp hc)
        · exact h.1 z hzys

theorem pairwise_sortDescBy {α : Type} (f : α → ℚ) (l : List α) :
    (sortDescBy f l).Pairwise (fun a b => f b ≤ f a) := by
  induction l with
  | nil => simp [sortDescBy]
  | cons x xs ih =>
      rw [sortDescBy]
      exact pairwise_insertDescBy f x _ ih

theorem dedupDisjoint_sublist (l : List MemoryPrediction) (seen : Finset String) :
    (dedupDisjoint l seen).Sublist l := by
  induction l generalizing seen with
  | nil => simp [dedupDisjoint]
  | cons p rest ih =>
      rw [dedupDisjoint]
      by_cases hc : p.predictedMemoryIds.toFinset ∩ seen = ∅
      · rw [if_pos hc]
        exact List.Sublist.cons₂ p (ih _)
      · rw [if_neg hc]
        exact List.Sublist.cons p (ih _)

theorem dedupDisjoint_spec (l : List MemoryPrediction) (seen : Finset String) :
    (dedupDisjoint l seen).Pairwise
      (fun p q => ∀ x ∈ p.predictedMemoryIds, x ∉ q.predictedMemoryIds) ∧
    ∀ p ∈ dedupDisjoint l seen, ∀ x ∈ p.predictedMemoryIds, x ∉ seen := by
  induction l generalizing seen with
  | nil => exact ⟨List.Pairwise.nil, by simp [dedupDisjoint]⟩
  | cons p rest ih =>
      rw [dedupDisjoint]
      by_cases hc : p.predictedMemoryIds.toFinset ∩ seen = ∅
      · rw [if_pos hc]
        obtain ⟨ihp, ihs⟩ := ih (seen ∪ p.predictedMemoryIds.toFinset)
        constructor
        · refine List.Pairwise.cons ?_ ihp
          intro q hq x hxp hxq
          have := ihs q hq x hxq
          exact this (Finset.mem_union.mpr (Or.inr (List.mem_toFinset.mpr hxp)))
        · intro q hq x hxq
          rcases List.mem_cons.mp hq with rfl | hq'
          · intro hseen
            have : x ∈ q.predictedMemoryIds.toFinset ∩ seen :=
              Finset.mem_inter.mpr ⟨List.mem_toFinset.mpr hxq, hseen⟩
            rw [hc] at this
            exact absurd this (Finset.not_mem_empty x)
          · intro hseen
            exact ihs q hq' x hxq (Finset.mem_union.mpr (Or.inl hseen))
      · rw [if_neg hc]
        exact ih seen

theorem rankPredictions_sorted (l : List MemoryPrediction) :
    (rankPredictions l).Pairwise
      (fun p q => q.confidenceScore ≤ p.confidenceScore) :=
  (pairwise_sortDescBy (fun p => p.confidenceScore) l).sublist
    (dedupDisjoint_sublist _ _)

theorem rankPredictions_disjoint (l : List MemoryPrediction) :
    (rankPredictions l).Pairwise
      (fun p q => ∀ x ∈ p.predictedMemoryIds, x ∉ q.predictedMemoryIds) :=
  (dedupDisjoint_spec _ _).1

theorem rankPredictions_mem (l : List MemoryPrediction) (p : MemoryPrediction)
    (h : p ∈ rankPredictions l) : p ∈ l := by
  have h' : p ∈ dedupDisjoint (sortDescBy (fun q => q.confidenceScore) l) ∅ := h
  exact (sortDescBy_perm (fun q => q.confidenceScore) l).mem_iff.mp
    ((dedupDisjoint_sublist _ _).subset h')

/-- C3 (amended): every prediction list returned by `predict_next_memories`
or `predict_needs` is sorted descending by confidence score with pairwise
disjoint predicted-id sets; `predict_next_memories` returns at most 10
predictions, but `predict_needs` cuts at `max_predictions` — 20 by default —
so a prediction *request* can return more than 10 (see
`predictNeeds_cap_counterexample`). -/
theorem predictions_sorted_disjoint_capped :
    (∀ (P : MemoryPredictor) (context : MemoryContext) (userId : String)
       (recentAccesses : List String) (now : DateTime),
       (predictNextMemories P context userId recentAccesses now).Pairwise
         (fun p q => q.confidenceScore ≤ p.confidenceScore) ∧
       (predictNextMemories P context userId recentAccesses now).Pairwise
         (fun p q => ∀ x ∈ p.predictedMemoryIds, x ∉ q.predictedMemoryIds) ∧
       (predictNextMemories P context userId recentAccesses now).length ≤ 10) ∧
    (∀ (L : PredictiveLoader) (context : MemoryContext) (now : DateTime),
       (predictNeeds L context now).Pairwise
         (fun p q => q.confidenceScore ≤ p.confidenceScore) ∧
       (predictNeeds L context now).Pairwise
         (fun p q => ∀ x ∈ p.predictedMemoryIds, x ∉ q.predictedMemoryIds) ∧
       (predictNeeds L context now).length ≤ L.maxPredictions) ∧
    ({} : PredictiveLoader).maxPredictions = 20 := by
  refine ⟨?_, ?_, rfl⟩
  · intro P context userId recentAccesses now
    refine ⟨?_, ?_, ?_⟩
    · exact (rankPredictions_sorted _).sublist (List.take_sublist _ _)
    · exact (rankPredictions_disjoint _).sublist (List.take_sublist _ _)
    · exact List.length_take_le _ _
  · intro L context now
    cases hu : context.user with
    | none =>
        simp only [predictNeeds, hu]
        exact ⟨List.Pairwise.nil, List.Pairwise.nil, by simp⟩
    | some u =>
        by_cases hue : u = ""
        · simp only [predictNeeds, hu, if_pos hue]
          exact ⟨List.Pairwise.nil, List.Pairwise.nil, by simp⟩
        · simp only [predictNeeds, hu, if_neg hue]
          refine ⟨?_, ?_, ?_⟩
          · exact (rankPredictions_sorted _).sublist (List.take_sublist _ _)
          · exact (rankPredictions_disjoint _).sublist (List.take_sublist _ _)
          · exact List.length_take_le _ _

/-- Access time of the ten auxiliary users (well in the past). -/
def c3T0 : DateTime := { abs := 100, hour := 4, weekday := 0, month := 1 }

/-- Access time of user `alice` (hour and month differ from `c3Now`). -/
def c3TA : DateTime := { abs := 600, hour := 3, weekday := 2, month := 1 }

/-- The time of the prediction request. -/
def c3Now : DateTime := { abs := 620, hour := 12, weekday := 3, month := 2 }

/-- A context carrying only a user. -/
def c3Ctx (u : String) : MemoryContext := { user := some u }

/-- Ten users, each accessing `"R"` and then a private memory, followed by
one access of `"R"` by `alice`. -/
def c3Events : List (String × String) :=
  [("R", "u1"), ("x1", "u1"), ("R", "u2"), ("x2", "u2"),
   ("R", "u3"), ("x3", "u3"), ("R", "u4"), ("x4", "u4"),
   ("R", "u5"), ("x5", "u5"), ("R", "u6"), ("x6", "u6"),
   ("R", "u7"), ("x7", "u7"), ("R", "u8"), ("x8", "u8"),
   ("R", "u9"), ("x9", "u9"), ("R", "u10"), ("x10", "u10")]

/-- The loader state reached by recording the above access events. -/
def c3Loader : PredictiveLoader :=
  recordAccessEvent
    (c3Events.foldl (fun L e => recordAccessEvent L e.1 (c3Ctx e.2) c3T0) {})
    "R" (c3Ctx "alice") c3TA

/-- The predictor state reached in `c3Loader`, written out as an explicit
table (proved equal to it in `c3Loader_eq`). -/
def c3Predictor : MemoryPredictor :=
  { temporalPatterns :=
      [("u1", [(c3T0, "R"), (c3T0, "x1")]), ("u2", [(c3T0, "R"), (c3T0, "x2")]),
       ("u3", [(c3T0, "R"), (c3T0, "x3")]), ("u4", [(c3T0, "R"), (c3T0, "x4")]),
       ("u5", [(c3T0, "R"), (c3T0, "x5")]), ("u6", [(c3T0, "R"), (c3T0, "x6")]),
       ("u7", [(c3T0, "R"), (c3T0, "x7")]), ("u8", [(c3T0, "R"), (c3T0, "x8")]),
       ("u9", [(c3T0, "R"), (c3T0, "x9")]),
       ("u10", [(c3T0, "R"), (c3T0, "x10")]),
       ("alice", [(c3TA, "R")])],
    contextAssociations :=
      [("user:u1", [("R", 1), ("x1", 1)]), ("user:u2", [("R", 1), ("x2", 1)]),
       ("user:u3", [("R", 1), ("x3", 1)]), ("user:u4", [("R", 1), ("x4", 1)]),
       ("user:u5", [("R", 1), ("x5", 1)]), ("user:u6", [("R", 1), ("x6", 1)]),
       ("user:u7", [("R", 1), ("x7", 1)]), ("user:u8", [("R", 1), ("x8", 1)]),
       ("user:u9", [("R", 1), ("x9", 1)]),
       ("user:u10", [("R", 1), ("x10", 1)]),
       ("user:alice", [("R", 1)])],
    sequencePatterns :=
      [("u1", ["R", "x1"]), ("u2", ["R", "x2"]), ("u3", ["R", "x3"]),
       ("u4", ["R", "x4"]), ("u5", ["R", "x5"]), ("u6", ["R", "x6"]),
       ("u7", ["R", "x7"]), ("u8", ["R", "x8"]), ("u9", ["R", "x9"]),
       ("u10", ["R", "x10"]), ("alice", ["R"])],
    userWorkflows :=
      [("u1", []), ("u2", []), ("u3", []), ("u4", []), ("u5", []),
       ("u6", []), ("u7", []), ("u8", []), ("u9", []), ("u10", []),
       ("alice", [])] }

def c3Recents : List (String × List String) :=
  [("u1", ["R", "x1"]), ("u2", ["R", "x2"]), ("u3", ["R", "x3"]),
   ("u4", ["R", "x4"]), ("u5", ["R", "x5"]), ("u6", ["R", "x6"]),
   ("u7", ["R", "x7"]), ("u8", ["R", "x8"]), ("u9", ["R", "x9"]),
   ("u10", ["R", "x10"]), ("alice", ["R"])]

set_option maxHeartbeats 1600000 in
theorem c3Loader_eq :
    c3Loader = { predictor := c3Predictor, recentAccesses := c3Recents,
                 maxPredictions := 20 } := by
  norm_num +decide [c3Loader, c3Events, c3Ctx, c3Predictor, c3Recents,
    recordAccessEvent, learnFromAccess, updateWorkflowPatterns, getContextKey,
    c3T0, c3TA, dget?, dset, dgetD, dupdate, pyTruthy]

def c3CtxPred : MemoryPrediction :=
  { predictedMemoryIds := ["R"],
    predictionType := PredictionType.contextMemories,
    confidence := PredictionConfidence.veryLow,
    confidenceScore := 1/10, predictedAt := 620, validUntil := 624 }

def c3Rel (x : String) : MemoryPrediction :=
  { predictedMemoryIds := [x],
    predictionType := PredictionType.relatedMemories,
    confidence := PredictionConfidence.low,
    confidenceScore := 3/10, predictedAt := 620, validUntil := 644 }

set_option maxHeartbeats 1600000 in
theorem c3_similar :
    findSimilarUsers c3Predictor "alice" = ["u1", "u2", "u3"] := by
  norm_num +decide [findSimilarUsers, c3Predictor, c3T0, c3TA, dget?,
    List.filterMap_cons, List.filterMap_nil, List.dedup_nil,
    List.dedup_cons_of_mem, List.dedup_cons_of_not_mem, List.filter_cons,
    List.filter_nil, List.take_succ_cons, List.take_zero]

set_option maxHeartbeats 1600000 in
theorem c3_collab :
    predictFromCollaboration c3Predictor "alice" c3Now = [] := by
  simp only [predictFromCollaboration]
  rw [c3_similar]
  norm_num +decide [c3Predictor, c3T0, c3TA, c3Now, dget?,
    List.filterMap_cons, List.filterMap_nil]

set_option maxHeartbeats 1600000 in
theorem c3_next :
    predictNextMemories c3Predictor (c3Ctx "alice") "alice" ["R"] c3Now =
      [c3CtxPred] := by
  simp only [predictNextMemories]
  rw [c3_collab]
  norm_num +decide [predictFromSequences, predictFromContext,
    predictFromTemporal, predictFromWorkflows, rankPredictions, dedupDisjoint,
    sortDescBy, insertDescBy, getContextKey, scoreToConfidence, c3Predictor,
    c3CtxPred, c3Ctx, c3T0, c3TA, c3Now, dget?, pyTruthy,
    List.filterMap_cons, List.filterMap_nil, List.flatMap_cons,
    List.flatMap_nil, List.filter_cons, List.filter_nil]

theorem c3_findRel (x : String) (hx : ¬x = "R") :
    findRelatedMemories "R" [(c3T0, "R"), (c3T0, x)] = [x] := by
  have hr : ¬"R" = x := fun h => hx h.symm
  norm_num [findRelatedMemories, countFreq, sortDescBy, insertDescBy, c3T0,
    dupdate, dset, dgetD, dget?, hx, hr, List.filterMap_cons,
    List.filterMap_nil, List.flatMap_cons, List.flatMap_nil]

theorem c3_findRelAlice : findRelatedMemories "R" [(c3TA, "R")] = [] := by
  norm_num [findRelatedMemories, c3TA, List.filterMap_cons,
    List.filterMap_nil, List.flatMap_cons, List.flatMap_nil]

theorem c3_relScore (x : String) (hx : ¬x = "R") :
    calcConfidenceScore [x] [(c3T0, "R"), (c3T0, x)] = 3/10 := by
  have hr : ¬"R" = x := fun h => hx h.symm
  norm_num [calcConfidenceScore, dupdate, dset, dgetD, dget?, hx, hr, min_def]

theorem c3_relTier (x : String) :
    calcConfidenceTier [x] (c3Ctx "alice") = PredictionConfidence.low := by
  norm_num [calcConfidenceTier, c3Ctx, pyTruthy]

set_option maxHeartbeats 1600000 in
theorem c3_related :
    predictRelatedMemories c3Predictor "R" (c3Ctx "alice") c3Now =
      [c3Rel "x1", c3Rel "x2", c3Rel "x3", c3Rel "x4", c3Rel "x5",
       c3Rel "x6", c3Rel "x7", c3Rel "x8", c3Rel "x9", c3Rel "x10"] := by
  simp only [predictRelatedMemories, c3Predictor]
  norm_num +decide [c3_findRel, c3_findRelAlice, c3_relScore, c3_relTier,
    c3Rel, c3Now, List.filterMap_cons, List.filterMap_nil]

set_option maxHeartbeats 1600000 in
theorem c3_seasonal :
    predictSeasonalMemories c3Predictor "alice" c3Now = [] := by
  norm_num +decide [predictSeasonalMemories, c3Predictor, c3T0, c3TA, c3Now,
    dget?, List.flatMap_cons, List.flatMap_nil]

/-- Claim C3, counterexample to the 10-prediction cap for `predict_needs`:
from the recorded access history of `c3Loader`, a request by `alice` yields
eleven predictions (one context prediction plus ten related-memory
predictions, all with pairwise disjoint id sets), because `predict_needs`
cuts at `max_predictions = 20`, not at 10. -/
theorem predictNeeds_cap_counterexample :
    (predictNeeds c3Loader (c3Ctx "alice") c3Now).length = 11 ∧
    c3Loader.maxPredictions = 20 ∧ 10 < 11 := by
  have hu : (c3Ctx "alice").user = some "alice" := rfl
  refine ⟨?_, ?_, by norm_num⟩
  · rw [c3Loader_eq]
    simp only [predictNeeds, hu]
    norm_num +decide [c3Recents, dget?, c3_next, c3_related, c3_seasonal,
      rankPredictions, dedupDisjoint, sortDescBy, insertDescBy, c3CtxPred,
      c3Rel, List.flatMap_cons, List.flatMap_nil]
  · rw [c3Loader_eq]

/-! ### Confidence bounds (claim C8) -/

theorem dget?_mem {α : Type} [DecidableEq α] {β : Type} {d : List (α × β)}
    {k : α} {v : β} (h : dget? d k = some v) : (k, v) ∈ d := by
  induction d with
  | nil => simp [dget?] at h
  | cons kv t ih =>
      obtain ⟨k0, v0⟩ := kv
      by_cases hk : k0 = k
      · subst hk
        rw [dget?, if_pos rfl] at h
        injection h with h
        subst h
        exact List.mem_cons_self _ _
      · rw [dget?, if_neg hk] at h
        exact List.mem_cons_of_mem _ (ih h)

theorem calcTemporalRelevance_lb (m : MemoryItem) (now : ℚ) :
    (1/10 : ℚ) ≤ calcTemporalRelevance m now := by
  simp only [calcTemporalRelevance]
  cases hla : m.lastAccessed with
  | none => exact le_min (by norm_num) (le_max_left _ _)
  | some la =>
      refine le_min (by norm_num) ?_
      have h1 : (1/10 : ℚ) ≤ max (1/10) (1 - (now - m.createdAt) / (24 * 7)) :=
        le_max_left _ _
      have h2 : (1 : ℚ) ≤ max 1 (3/2 - (now - la) / 24) := le_max_left _ _
      calc (1/10 : ℚ) = (1/10) * 1 := by ring
        _ ≤ max (1/10) (1 - (now - m.createdAt) / (24 * 7)) *
            max 1 (3/2 - (now - la) / 24) :=
          mul_le_mul h1 h2 (by norm_num) (le_trans (by norm_num) h1)

theorem calcConfidence_bounds (fs : FactorScores)
    (strategy : RetrievalStrategy) (h : 0 ≤ fs.temporalRelevance) :
    0 ≤ calcConfidence fs strategy ∧ calcConfidence fs strategy ≤ 1 := by
  simp only [calcConfidence, factorList]
  refine ⟨le_min (by norm_num) ?_, min_le_left _ _⟩
  have hmax : 0 ≤ max fs.semanticSimilarity (max fs.contextMatch
      (max fs.temporalRelevance (max fs.accessFrequency (max fs.importanceScore
        (max fs.userPreference
          (max fs.relationshipStrength fs.contentFreshness)))))) :=
    le_trans h (le_trans (le_max_left _ _)
      (le_trans (le_max_right _ _) (le_max_right _ _)))
  refine add_nonneg (add_nonneg hmax (le_min (by norm_num) (by positivity))) ?_
  split
  · norm_num
  · norm_num

theorem mem_assignRanks {r : RetrievalResult} :
    ∀ {i : ℕ} {l : List RetrievalResult}, r ∈ assignRanks i l →
      ∃ s ∈ l, r.confidence = s.confidence := by
  intro i l
  induction l generalizing i with
  | nil => intro h; simp [assignRanks] at h
  | cons x xs ih =>
      intro h
      rw [assignRanks] at h
      rcases List.mem_cons.mp h with h1 | h2
      · exact ⟨x, List.mem_cons_self x xs, by rw [h1]⟩
      · obtain ⟨s, hs, he⟩ := ih h2
        exact ⟨s, List.mem_cons_of_mem _ hs, he⟩

theorem rankAndScore_confidence_bounds (cands : List MemoryItem)
    (query : MemoryQuery) (profile : Option UserProfile)
    (strategy : RetrievalStrategy) (params : RetrievalParameters) (now : ℚ)
    (r : RetrievalResult)
    (h : r ∈ rankAndScore cands query profile strategy params now) :
    0 ≤ r.confidence ∧ r.confidence ≤ 1 := by
  simp only [rankAndScore] at h
  obtain ⟨s, hs, he⟩ := mem_assignRanks h
  have hs' := (sortDescBy_perm
    (fun r : RetrievalResult => r.totalScore) _).mem_iff.mp hs
  obtain ⟨m, hm, rfl⟩ := List.mem_map.mp hs'
  rw [he]
  exact calcConfidence_bounds _ strategy
    (le_trans (by norm_num) (calcTemporalRelevance_lb m now))

theorem min_one_add_bounds {a b : ℚ} (ha : 0 ≤ a) (hb : 0 ≤ b) :
    0 ≤ min 1 (a + b) ∧ min 1 (a + b) ≤ 1 :=
  ⟨le_min (by norm_num) (add_nonneg ha hb), min_le_left _ _⟩

theorem calcConfidenceScore_bounds (ids : List String)
    (pats : List (DateTime × String)) :
    0 ≤ calcConfidenceScore ids pats ∧ calcConfidenceScore ids pats ≤ 1 := by
  simp only [calcConfidenceScore]
  apply min_one_add_bounds
  · exact le_min (by norm_num) (by positivity)
  · refine le_min (by norm_num) (div_nonneg ?_ (by norm_num))
    split
    · norm_num
    · positivity

theorem calcSequenceConfidence_bounds (recent : List String) (n : ℕ) :
    0 ≤ calcSequenceConfidence recent n ∧ calcSequenceConfidence recent n ≤ 1 := by
  simp only [calcSequenceConfidence]
  apply min_one_add_bounds
  · positivity
  · split <;> norm_num

theorem predictFromSequences_eq_nil (P : MemoryPredictor) (userId : String)
    (recent : List String) (now : DateTime) :
    predictFromSequences P userId recent now = [] := by
  simp only [predictFromSequences, pyStrEqListStr]
  split
  · rfl
  · cases dget? P.sequencePatterns userId with
    | none => rfl
    | some pats =>
        simp [List.flatMap_eq_nil_iff]

theorem predictFromContext_confidence_bounds (P : MemoryPredictor)
    (context : MemoryContext) (now : DateTime)
    (hP : ∀ a ∈ P.contextAssociations, ∀ kv ∈ a.2, (0:ℚ) ≤ kv.2)
    (p : MemoryPrediction) (h : p ∈ predictFromContext P context now) :
    0 ≤ p.confidenceScore ∧ p.confidenceScore ≤ 1 := by
  simp only [predictFromContext] at h
  cases hg : dget? P.contextAssociations (getContextKey context) with
  | none => simp [hg] at h
  | some assoc =>
      simp only [hg] at h
      split at h
      · simp at h
      · rw [List.mem_singleton] at h
        subst h
        simp only
        refine ⟨le_min (by norm_num) ?_, min_le_left _ _⟩
        refine div_nonneg (div_nonneg ?_ (by positivity)) (by norm_num)
        refine List.sum_nonneg ?_
        intro x hx
        obtain ⟨kv, hkv, rfl⟩ := List.mem_map.mp hx
        have hkv' : kv ∈ assoc :=
          (sortDescBy_perm (fun kv : String × ℚ => kv.2) assoc).mem_iff.mp
            (List.take_subset _ _ hkv)
        exact hP _ (dget?_mem hg) kv hkv'

theorem predictFromTemporal_confidence_bounds (P : MemoryPredictor)
    (userId : String) (now : DateTime) (p : MemoryPrediction)
    (h : p ∈ predictFromTemporal P userId now) :
    0 ≤ p.confidenceScore ∧ p.confidenceScore ≤ 1 := by
  simp only [predictFromTemporal] at h
  cases hg : dget? P.temporalPatterns userId with
  | none => simp [hg] at h
  | some pats =>
      simp only [hg] at h
      split at h
      · simp at h
      · rw [List.mem_singleton] at h
        subst h
        exact ⟨by norm_num, by norm_num⟩

theorem predictFromWorkflows_confidence_bounds (P : MemoryPredictor)
    (userId : String) (recent : List String) (now : DateTime)
    (p : MemoryPrediction) (h : p ∈ predictFromWorkflows P userId recent now) :
    0 ≤ p.confidenceScore ∧ p.confidenceScore ≤ 1 := by
  simp only [predictFromWorkflows] at h
  cases hg : dget? P.userWorkflows userId with
  | none => simp [hg] at h
  | some wfs =>
      simp only [hg] at h
      rw [List.mem_flatMap] at h
      obtain ⟨wf, hwf, h⟩ := h
      split at h
      · rw [List.mem_filterMap] at h
        obtain ⟨i, hi, hf⟩ := h
        split at hf
        · split at hf
          · exact absurd hf (by simp)
          · injection hf with hf
            subst hf
            exact ⟨by norm_num, by norm_num⟩
        · exact absurd hf (by simp)
      · simp at h

theorem predictFromCollaboration_confidence_bounds (P : MemoryPredictor)
    (userId : String) (now : DateTime) (p : MemoryPrediction)
    (h : p ∈ predictFromCollaboration P userId now) :
    0 ≤ p.confidenceScore ∧ p.confidenceScore ≤ 1 := by
  simp only [predictFromCollaboration] at h
  split at h
  · simp at h
  · split at h
    · simp at h
    · rw [List.mem_singleton] at h
      subst h
      exact ⟨by norm_num, by norm_num⟩

theorem predictSeasonalMemories_confidence_bounds (P : MemoryPredictor)
    (userId : String) (now : DateTime) (p : MemoryPrediction)
    (h : p ∈ predictSeasonalMemories P userId now) :
    0 ≤ p.confidenceScore ∧ p.confidenceScore ≤ 1 := by
  simp only [predictSeasonalMemories] at h
  cases hg : dget? P.temporalPatterns userId with
  | none => simp [hg] at h
  | some pats =>
      simp only [hg] at h
      split at h
      · simp at h
      · rw [List.mem_singleton] at h
        subst h
        exact ⟨by norm_num, by norm_num⟩

theorem predictRelatedMemories_confidence_bounds (P : MemoryPredictor)
    (memoryId : String) (context : MemoryContext) (now : DateTime)
    (p : MemoryPrediction) (h : p ∈ predictRelatedMemories P memoryId context now) :
    0 ≤ p.confidenceScore ∧ p.confidenceScore ≤ 1 := by
  simp only [predictRelatedMemories] at h
  rw [List.mem_filterMap] at h
  obtain ⟨up, hup, hf⟩ := h
  split at hf
  · exact absurd hf (by simp)
  · injection hf with hf
    subst hf
    exact calcConfidenceScore_bounds _ _

theorem predictNextMemories_confidence_bounds (P : MemoryPredictor)
    (context : MemoryContext) (userId : String) (recent : List String)
    (now : DateTime)
    (hP : ∀ a ∈ P.contextAssociations, ∀ kv ∈ a.2, (0:ℚ) ≤ kv.2)
    (p : MemoryPrediction)
    (h : p ∈ predictNextMemories P context userId recent now) :
    0 ≤ p.confidenceScore ∧ p.confidenceScore ≤ 1 := by
  simp only [predictNextMemories] at h
  have h1 := rankPredictions_mem _ _ (List.take_subset _ _ h)
  rw [predictFromSequences_eq_nil, List.nil_append] at h1
  rcases List.mem_append.mp h1 with h2 | hcol
  · rcases List.mem_append.mp h2 with h3 | hwf
    · rcases List.mem_append.mp h3 with hctx | htmp
      · exact predictFromContext_confidence_bounds P context now hP p hctx
      · exact predictFromTemporal_confidence_bounds P userId now p htmp
    · exact predictFromWorkflows_confidence_bounds P userId recent now p hwf
  · exact predictFromCollaboration_confidence_bounds P userId now p hcol

theorem predictNeeds_confidence_bounds (L : PredictiveLoader)
    (context : MemoryContext) (now : DateTime)
    (hP : ∀ a ∈ L.predictor.contextAssociations, ∀ kv ∈ a.2, (0:ℚ) ≤ kv.2)
    (p : MemoryPrediction) (h : p ∈ predictNeeds L context now) :
    0 ≤ p.confidenceScore ∧ p.confidenceScore ≤ 1 := by
  simp only [predictNeeds] at h
  cases hu : context.user with
  | none => simp [hu] at h
  | some u =>
      simp only [hu] at h
      split at h
      · simp at h
      · have h1 := rankPredictions_mem _ _ (List.take_subset _ _ h)
        rcases List.mem_append.mp h1 with h2 | hsea
        · rcases List.mem_append.mp h2 with hnext | hrel
          · exact predictNextMemories_confidence_bounds _ _ _ _ _ hP p hnext
          · split at hrel
            · simp at hrel
            · rw [List.mem_flatMap] at hrel
              obtain ⟨rid, _, hrel⟩ := hrel
              exact predictRelatedMemories_confidence_bounds _ _ _ _ p hrel
        · exact predictSeasonalMemories_confidence_bounds _ _ _ p hsea

/-- Claim C8: assuming the data-model ranges (association strengths are
non-negative counts), every retrieval result's confidence and every produced
prediction's confidence score lie in the closed interval `[0,1]` — for
`_rank_and_score` even with no assumption at all, since the temporal factor
is always at least `0.1` and the confidence caps at `1`. -/
theorem confidence_scores_in_unit_interval :
    (∀ (cands : List MemoryItem) (query : MemoryQuery)
       (profile : Option UserProfile) (strategy : RetrievalStrategy)
       (params : RetrievalParameters) (now : ℚ),
       ∀ r ∈ rankAndScore cands query profile strategy params now,
         0 ≤ r.confidence ∧ r.confidence ≤ 1) ∧
    (∀ (P : MemoryPredictor) (context : MemoryContext) (userId : String)
       (recent : List String) (now : DateTime),
       (∀ a ∈ P.contextAssociations, ∀ kv ∈ a.2, (0:ℚ) ≤ kv.2) →
       ∀ p ∈ predictNextMemories P context userId recent now,
         0 ≤ p.confidenceScore ∧ p.confidenceScore ≤ 1) ∧
    (∀ (L : PredictiveLoader) (context : MemoryContext) (now : DateTime),
       (∀ a ∈ L.predictor.contextAssociations, ∀ kv ∈ a.2, (0:ℚ) ≤ kv.2) →
       ∀ p ∈ predictNeeds L context now,
         0 ≤ p.confidenceScore ∧ p.confidenceScore ≤ 1) :=
  ⟨fun cands query profile strategy params now r h =>
      rankAndScore_confidence_bounds cands query profile strategy params now r h,
   fun P context userId recent now hP p h =>
      predictNextMemories_confidence_bounds P context userId recent now hP p h,
   fun L context now hP p h =>
      predictNeeds_confidence_bounds L context now hP p h⟩

/-- A retrieval candidate with default fields, for exercising the
confidence-bounds theorem on a concrete ranking. -/
def c8Item : MemoryItem := { memoryId := "w" }

/-- A minimal query (no context). -/
def c8Query : MemoryQuery := { queryText := "q" }

/-- A predictor having learned a single association for user `u`. -/
def c8P : MemoryPredictor :=
  { contextAssociations := [("user:u", [("m", 1)])] }

/-- The query-time context of the C8 witness. -/
def c8QCtx : MemoryContext := { user := some "u" }

/-- The prediction-request time of the C8 witness. -/
def c8Now : DateTime := { abs := 0, hour := 0, weekday := 0, month := 1 }

/-- The one retrieval result produced from `c8Item`. -/
def c8Result : RetrievalResult :=
  { memory := c8Item, totalScore := 3/5,
    factorScores :=
      { semanticSimilarity := 0, contextMatch := 0, temporalRelevance := 1,
        accessFrequency := 0, importanceScore := 1, userPreference := 1/2,
        relationshipStrength := 0, contentFreshness := 1 },
    retrievalReason := "recent or recently accessed", confidence := 1,
    rank := 1 }

/-- The one prediction produced from `c8P` for user `u`. -/
def c8Pred : MemoryPrediction :=
  { predictedMemoryIds := ["m"],
    predictionType := PredictionType.contextMemories,
    confidence := PredictionConfidence.veryLow,
    confidenceScore := 1/10, predictedAt := 0, validUntil := 4 }

theorem confidence_scores_in_unit_interval_witness :
    (0 ≤ c8Result.confidence ∧ c8Result.confidence ≤ 1) ∧
    (0 ≤ c8Pred.confidenceScore ∧ c8Pred.confidenceScore ≤ 1) := by
  have hm1 : c8Result ∈ rankAndScore [c8Item] c8Query none
      RetrievalStrategy.semantic {} 0 := by
    norm_num +decide [rankAndScore, assignRanks, sortDescBy, insertDescBy,
      calcContextSimilarity, calcTemporalRelevance, calcFrequencyScore,
      calcUserPreference, calcRelationshipStrength, calcFreshnessScore,
      calcTotalScore, calcConfidence, determineRetrievalReason, maxByValFirst,
      factorList, c8Item, c8Query, c8Result, min_def, max_def, Int.floor_zero]
  have hm2 : c8Pred ∈ predictNeeds { predictor := c8P } c8QCtx c8Now := by
    norm_num +decide [predictNeeds, predictNextMemories,
      predictFromSequences, predictFromContext, predictFromTemporal,
      predictFromWorkflows, predictFromCollaboration, findSimilarUsers,
      predictRelatedMemories, predictSeasonalMemories, rankPredictions,
      dedupDisjoint, sortDescBy, insertDescBy, getContextKey,
      scoreToConfidence, c8P, c8QCtx, c8Now, c8Pred, dget?, pyTruthy,
      min_def]
  have hP : ∀ a ∈ c8P.contextAssociations, ∀ kv ∈ a.2, (0:ℚ) ≤ kv.2 := by
    decide
  exact ⟨confidence_scores_in_unit_interval.1 [c8Item] c8Query none
          RetrievalStrategy.semantic {} 0 c8Result hm1,
         confidence_scores_in_unit_interval.2.2 { predictor := c8P } c8QCtx
          c8Now hP c8Pred hm2⟩
